import Mathlib

/-!
Collection matchers of `matchers/has/collection.go`

A shallow embedding of the slice/array matchers of package `has`
(`EveryItemMatching`, `AnyItemMatching`, `Item`, `ItemIn`, `Items`, `Sequence`)
and of their three helper loops, followed by the properties proved about them.

Conventions of the embedding

* A Go `error` is an `Option String`: `none` is `nil`, `some r` is an error whose
  text (`err.Error()`) is `r`.
* The element type of the inspected slice is a parameter `α` (Go: `interface{}`).
* The collaborators that live outside the file (`internal.Equal`, `is.EqualTo`,
  `is.OneOf`, the `%v` rendering of `fmt`) are parameters of the functions that
  call them.
* A Go `panic` at construction is `Except.error` with the panic text.
* Each `for` loop is a recursive function on the loop variables; a loop either
  leaves the enclosing function through a `return` or runs to its end.
-/

namespace Matchers

/-- The interface `charmset.Matcher`: a description and the function `Match`, which
returns `nil` (here `none`) on success and an error carrying the reason otherwise. -/
structure Matcher (α : Type) where
  Description : String
  Match : α → Option String

/-- The constructor `charmset.NewMatcher(description, matchFunc)`. -/
def NewMatcher {α : Type} (description : String) (matchFunc : α → Option String) :
    Matcher α :=
  ⟨description, matchFunc⟩

/-- The value handed to a collection matcher, classified the way the matchers
classify it with `reflect.ValueOf(actual).Kind()`: an array, a slice, or a value
of any other kind. -/
inductive Actual (α : Type) where
  | array (elems : List α)
  | slice (elems : List α)
  | other (v : α)

/-- The actual value is of kind `reflect.Array` or `reflect.Slice`. -/
def Actual.isSequence {α : Type} : Actual α → Bool
  | Actual.array _ => true
  | Actual.slice _ => true
  | Actual.other _ => false

/-- How a `for` loop of the source ends: through a `return` inside its body, or by
its condition becoming false, with the loop variables as they then are. -/
inductive LoopExit (σ : Type) where
  | returned (err : Option String)
  | finished (state : σ)

/-- The rendering by `fmt` of a `[]interface{}` under the verb `%v`: the elements,
each rendered with `%v`, separated by one space and enclosed in brackets. -/
def renderSlice {α : Type} (render : α → String) (xs : List α) : String :=
  "[" ++ " ".intercalate (xs.map render) ++ "]"

/-- The loop of `everyInSliceMatch` (lines 18-24), from index `i` on. -/
def everyInSliceMatch.loop {α : Type} (matcher : Matcher α) (actual : List α) (i : Nat) :
    LoopExit Unit :=
  if h : i < actual.length then
    match matcher.Match actual[i] with
    | some err => LoopExit.returned (some ("contained an item where " ++ err))
    | none => everyInSliceMatch.loop matcher actual (i + 1)
  else LoopExit.finished ()
termination_by actual.length - i

/-- The function `everyInSliceMatch` (lines 14-26). -/
def everyInSliceMatch {α : Type} (matcher : Matcher α) (actual : List α) : Option String :=
  if actual.length = 0 then some "was empty"
  else
    match everyInSliceMatch.loop matcher actual 0 with
    | LoopExit.returned err => err
    | LoopExit.finished _ => none

/-- The loop of `anyInSliceMatch` (lines 33-40), from index `i` on, with the
reasons collected so far in `errs`. -/
def anyInSliceMatch.loop {α : Type} (matcher : Matcher α) (actual : List α) (i : Nat)
    (errs : List String) : LoopExit (List String) :=
  if h : i < actual.length then
    match matcher.Match actual[i] with
    | none => LoopExit.returned none
    | some err => anyInSliceMatch.loop matcher actual (i + 1) (errs ++ [err])
  else LoopExit.finished errs
termination_by actual.length - i

/-- The function `anyInSliceMatch` (lines 28-45). -/
def anyInSliceMatch {α : Type} (matcher : Matcher α) (actual : List α) : Option String :=
  if actual.length = 0 then some "was empty"
  else
    match anyInSliceMatch.loop matcher actual 0 [] with
    | LoopExit.returned err => err
    | LoopExit.finished errs =>
      if h : errs.length = 1 then some ("contained an item where " ++ errs[0])
      else
        some ("no item matched where [\n          "
          ++ ",\n          ".intercalate errs ++ "\n          ]")

/-- The loop of `matchSliceSequence` (lines 50-66) from the cursors `i` (into the
actual slice) and `matchIndex` (into `expected`). `Equal` is `internal.Equal`. -/
def matchSliceSequence.loop {α : Type} (Equal : α → α → Option String)
    (expected actual : List α) (i matchIndex : Nat) : LoopExit (Nat × Nat) :=
  if h : i < actual.length ∧ matchIndex < expected.length then
    match Equal expected[matchIndex] actual[i] with
    | none =>
      if matchIndex + 1 = expected.length then LoopExit.returned none
      else matchSliceSequence.loop Equal expected actual (i + 1) (matchIndex + 1)
    | some _ =>
      if _h0 : matchIndex = 0 then matchSliceSequence.loop Equal expected actual (i + 1) 0
      else matchSliceSequence.loop Equal expected actual i 0
  else LoopExit.finished (i, matchIndex)
termination_by 2 * (actual.length - i) + (if 0 < matchIndex then 1 else 0)
decreasing_by
  all_goals simp_wf
  all_goals split <;> omega

/-- The function `matchSliceSequence` (lines 47-75). `render` is the `%v` rendering
of one element. -/
def matchSliceSequence {α : Type} (Equal : α → α → Option String) (render : α → String)
    (expected actual : List α) : Option String :=
  match matchSliceSequence.loop Equal expected actual 0 0 with
  | LoopExit.returned err => err
  | LoopExit.finished (_, matchIndex) =>
    if h : matchIndex < expected.length then
      if expected.length - matchIndex > 1 then
        some ("did not contain <" ++ renderSlice render (expected.drop matchIndex) ++ ">")
      else some ("did not contain <" ++ render expected[matchIndex] ++ ">")
    else none

/-- The constructor `EveryItemMatching` (lines 79-92). -/
def EveryItemMatching {α : Type} (matcher : Matcher α) : Matcher (Actual α) :=
  NewMatcher ("every item to have " ++ matcher.Description) fun actual =>
    match actual with
    | Actual.array elems => everyInSliceMatch matcher elems
    | Actual.slice elems => everyInSliceMatch matcher elems
    | Actual.other _ => some "was not a slice or array"

/-- The constructor `AnyItemMatching` (lines 96-109). -/
def AnyItemMatching {α : Type} (matcher : Matcher α) : Matcher (Actual α) :=
  NewMatcher ("any item to have " ++ matcher.Description) fun actual =>
    match actual with
    | Actual.array elems => anyInSliceMatch matcher elems
    | Actual.slice elems => anyInSliceMatch matcher elems
    | Actual.other _ => some "was not a slice or array"

/-- The constructor `Item` (lines 113-115); `EqualTo` is `is.EqualTo`. -/
def Item {α : Type} (EqualTo : α → Matcher α) (expected : α) : Matcher (Actual α) :=
  AnyItemMatching (EqualTo expected)

/-- The constructor `ItemIn` (lines 119-121); `OneOf` is `is.OneOf`. -/
def ItemIn {α : Type} (OneOf : List α → Matcher α) (expected : List α) :
    Matcher (Actual α) :=
  AnyItemMatching (OneOf expected)

/-- The `range` loop of `Items` (lines 136-141) over the expected values still to
be looked up. -/
def Items.loop {α : Type} (EqualTo : α → Matcher α) (actual : List α) :
    List α → Option String
  | [] => none
  | ex :: rest =>
    match anyInSliceMatch (EqualTo ex) actual with
    | some err => some err
    | none => Items.loop EqualTo actual rest

/-- The constructor `Items` (lines 125-147): it panics on an empty `expected`. -/
def Items {α : Type} (EqualTo : α → Matcher α) (render : α → String) (expected : List α) :
    Except String (Matcher (Actual α)) :=
  if expected.length = 0 then Except.error "will never match an empty set of items"
  else
    Except.ok <| NewMatcher
      ("values equal to <" ++ renderSlice render expected ++ "> in any order")
      fun actual =>
        match actual with
        | Actual.array elems => Items.loop EqualTo elems expected
        | Actual.slice elems => Items.loop EqualTo elems expected
        | Actual.other _ => some "was not a slice or array"

/-- The constructor `Sequence` (lines 151-168): it panics on an empty `expected`. -/
def Sequence {α : Type} (Equal : α → α → Option String) (render : α → String)
    (expected : List α) : Except String (Matcher (Actual α)) :=
  if expected.length = 0 then Except.error "will never match an empty sequence of items"
  else
    Except.ok <| NewMatcher
      ("values equal to <" ++ renderSlice render expected ++ "> in order")
      fun actual =>
        match actual with
        | Actual.array elems => matchSliceSequence Equal render expected elems
        | Actual.slice elems => matchSliceSequence Equal render expected elems
        | Actual.other _ => some "was not a slice or array"

/-! ## The loop of `matchSliceSequence`, one pass at a time -/

/-- The cursors `(i, matchIndex)` left by one pass through the body of the loop of
`matchSliceSequence` (lines 51-65), entered with the loop condition `h` true. The
pass leaves the function through `return nil` exactly when the new `matchIndex`
equals `len(expected)`. -/
def matchSliceSequence.body {α : Type} (Equal : α → α → Option String)
    (expected actual : List α) (i matchIndex : Nat)
    (h : i < actual.length ∧ matchIndex < expected.length) : Nat × Nat :=
  match Equal (expected.get ⟨matchIndex, h.2⟩) (actual.get ⟨i, h.1⟩) with
  | none => (i + 1, matchIndex + 1)
  | some _ => if matchIndex = 0 then (i + 1, 0) else (i, 0)

/-- The quantity `2*(len(actual) - i) + (1 if matchIndex > 0 else 0)` that bounds the
passes still to come. -/
def matchSliceSequence.variant {α : Type} (actual : List α) (i matchIndex : Nat) : Nat :=
  2 * (actual.length - i) + (if 0 < matchIndex then 1 else 0)

/-- The number of calls of `internal.Equal` (line 51) that the loop of
`matchSliceSequence` makes from the cursors `i` and `matchIndex` on. -/
def matchSliceSequence.comparisons {α : Type} (Equal : α → α → Option String)
    (expected actual : List α) (i matchIndex : Nat) : Nat :=
  if h : i < actual.length ∧ matchIndex < expected.length then
    match Equal expected[matchIndex] actual[i] with
    | none =>
      if matchIndex + 1 = expected.length then 1
      else 1 + matchSliceSequence.comparisons Equal expected actual (i + 1) (matchIndex + 1)
    | some _ =>
      if _h0 : matchIndex = 0 then
        1 + matchSliceSequence.comparisons Equal expected actual (i + 1) 0
      else 1 + matchSliceSequence.comparisons Equal expected actual i 0
  else 0
termination_by 2 * (actual.length - i) + (if 0 < matchIndex then 1 else 0)
decreasing_by
  all_goals simp_wf
  all_goals split <;> omega

/-- The cursor pairs at which the loop condition of `matchSliceSequence` (line 50) is
evaluated: `(0, 0)` at first, then the pair left by each pass through the body that
did not return. -/
inductive matchSliceSequence.Reaches {α : Type} (Equal : α → α → Option String)
    (expected actual : List α) : Nat → Nat → Prop where
  | start : matchSliceSequence.Reaches Equal expected actual 0 0
  | pass (i matchIndex : Nat) (h : i < actual.length ∧ matchIndex < expected.length) :
      matchSliceSequence.Reaches Equal expected actual i matchIndex →
      (matchSliceSequence.body Equal expected actual i matchIndex h).2 ≠ expected.length →
      matchSliceSequence.Reaches Equal expected actual
        (matchSliceSequence.body Equal expected actual i matchIndex h).1
        (matchSliceSequence.body Equal expected actual i matchIndex h).2

/-! ## The helper functions with the run-time checks made explicit

Go checks every index and slice expression at run time and panics when it is out
of range; `make` checks the requested capacity and panics when it is more than
the runtime can allocate. The functions below repeat the three helpers with each
such check written out, a failed check being `Except.error`. -/

/-- The allocation `make([]string, 0, cap)` of line 32 as the Go runtime performs
it: it panics when `cap` exceeds `capLimit`, the largest capacity the runtime
accepts for a slice of strings (its allocation limit divided by the size of a
string: `2^44` on a 64-bit platform), and returns the empty slice otherwise.
Running out of memory below that limit is not modelled. -/
def makeStringSlice (capLimit cap : Nat) : Except String (List String) :=
  if cap ≤ capLimit then Except.ok []
  else Except.error "runtime error: makeslice: cap out of range"

/-- The loop of `everyInSliceMatch` with the check of `actual.Index(i)`. -/
def everyInSliceMatch.loopChecked {α : Type} (matcher : Matcher α) (actual : List α)
    (i : Nat) : Except String (LoopExit Unit) :=
  if _h : i < actual.length then
    match actual[i]? with
    | none => Except.error "reflect: slice index out of range"
    | some value =>
      match matcher.Match value with
      | some err => Except.ok (LoopExit.returned (some ("contained an item where " ++ err)))
      | none => everyInSliceMatch.loopChecked matcher actual (i + 1)
  else Except.ok (LoopExit.finished ())
termination_by actual.length - i

/-- The function `everyInSliceMatch` with its bounds checks. -/
def everyInSliceMatchChecked {α : Type} (matcher : Matcher α) (actual : List α) :
    Except String (Option String) :=
  if actual.length = 0 then Except.ok (some "was empty")
  else
    match everyInSliceMatch.loopChecked matcher actual 0 with
    | Except.error p => Except.error p
    | Except.ok (LoopExit.returned err) => Except.ok err
    | Except.ok (LoopExit.finished _) => Except.ok none

/-- The loop of `anyInSliceMatch` with the check of `actual.Index(i)`. -/
def anyInSliceMatch.loopChecked {α : Type} (matcher : Matcher α) (actual : List α)
    (i : Nat) (errs : List String) : Except String (LoopExit (List String)) :=
  if _h : i < actual.length then
    match actual[i]? with
    | none => Except.error "reflect: slice index out of range"
    | some value =>
      match matcher.Match value with
      | none => Except.ok (LoopExit.returned none)
      | some err => anyInSliceMatch.loopChecked matcher actual (i + 1) (errs ++ [err])
  else Except.ok (LoopExit.finished errs)
termination_by actual.length - i

/-- The function `anyInSliceMatch` with its run-time checks: the capacity check of
`make([]string, 0, actual.Len())` (line 32), the index checks of the loop and that
of `errs[0]`. -/
def anyInSliceMatchChecked {α : Type} (capLimit : Nat) (matcher : Matcher α)
    (actual : List α) : Except String (Option String) :=
  if actual.length = 0 then Except.ok (some "was empty")
  else
    match makeStringSlice capLimit actual.length with
    | Except.error p => Except.error p
    | Except.ok errs0 =>
      match anyInSliceMatch.loopChecked matcher actual 0 errs0 with
      | Except.error p => Except.error p
      | Except.ok (LoopExit.returned err) => Except.ok err
      | Except.ok (LoopExit.finished errs) =>
        if errs.length = 1 then
          match errs[0]? with
          | none => Except.error "index out of range"
          | some e => Except.ok (some ("contained an item where " ++ e))
        else
          Except.ok (some ("no item matched where [\n          "
            ++ ",\n          ".intercalate errs ++ "\n          ]"))

/-- The loop of `matchSliceSequence` with the checks of `expected[matchIndex]` and
`actual.Index(i)`. -/
def matchSliceSequence.loopChecked {α : Type} (Equal : α → α → Option String)
    (expected actual : List α) (i matchIndex : Nat) : Except String (LoopExit (Nat × Nat)) :=
  if _h : i < actual.length ∧ matchIndex < expected.length then
    match expected[matchIndex]?, actual[i]? with
    | some e, some a =>
      match Equal e a with
      | none =>
        if matchIndex + 1 = expected.length then Except.ok (LoopExit.returned none)
        else matchSliceSequence.loopChecked Equal expected actual (i + 1) (matchIndex + 1)
      | some _ =>
        if _h0 : matchIndex = 0 then
          matchSliceSequence.loopChecked Equal expected actual (i + 1) 0
        else matchSliceSequence.loopChecked Equal expected actual i 0
    | _, _ => Except.error "index out of range"
  else Except.ok (LoopExit.finished (i, matchIndex))
termination_by 2 * (actual.length - i) + (if 0 < matchIndex then 1 else 0)
decreasing_by
  all_goals simp_wf
  all_goals split <;> omega

/-- The function `matchSliceSequence` with its bounds checks, those of the slice
expression `expected[matchIndex:]` and of `expected[matchIndex]` included. -/
def matchSliceSequenceChecked {α : Type} (Equal : α → α → Option String)
    (render : α → String) (expected actual : List α) : Except String (Option String) :=
  match matchSliceSequence.loopChecked Equal expected actual 0 0 with
  | Except.error p => Except.error p
  | Except.ok (LoopExit.returned err) => Except.ok err
  | Except.ok (LoopExit.finished (_, matchIndex)) =>
    if matchIndex < expected.length then
      if expected.length - matchIndex > 1 then
        if matchIndex ≤ expected.length then
          Except.ok (some ("did not contain <"
            ++ renderSlice render (expected.drop matchIndex) ++ ">"))
        else Except.error "slice bounds out of range"
      else
        match expected[matchIndex]? with
        | none => Except.error "index out of range"
        | some e => Except.ok (some ("did not contain <" ++ render e ++ ">"))
    else Except.ok none

/-- The `range` loop of `Items` over the helper with its run-time checks; a panic of
the helper ends the loop. -/
def Items.loopChecked {α : Type} (capLimit : Nat) (EqualTo : α → Matcher α)
    (actual : List α) : List α → Except String (Option String)
  | [] => Except.ok none
  | ex :: rest =>
    match anyInSliceMatchChecked capLimit (EqualTo ex) actual with
    | Except.error p => Except.error p
    | Except.ok (some err) => Except.ok (some err)
    | Except.ok none => Items.loopChecked capLimit EqualTo actual rest

/-- A matcher built by a constructor that may panic succeeds on `actual`: the
constructor returned a matcher and its `Match` returned `nil`. -/
def Succeeds {α : Type} (built : Except String (Matcher (Actual α))) (actual : Actual α) :
    Prop :=
  ∃ m, built = Except.ok m ∧ m.Match actual = none

/-- A matcher built by a constructor that may panic fails on `actual`: the
constructor returned a matcher and its `Match` returned an error. -/
def Fails {α : Type} (built : Except String (Matcher (Actual α))) (actual : Actual α) :
    Prop :=
  ∃ m reason, built = Except.ok m ∧ m.Match actual = some reason

/-! ## Specification-side predicates -/

/-- The actual value is sequence-shaped, an array or a slice, holding the elements
`A` in index order. -/
def SequenceOf {α : Type} (actual : Actual α) (A : List α) : Prop :=
  actual = Actual.array A ∨ actual = Actual.slice A

/-- The list `E` is a (not necessarily contiguous) subsequence of `A`: there are
strictly increasing indices into `A` at which `A` holds the elements of `E`. -/
def IsSubsequenceOf {α : Type} (E A : List α) : Prop :=
  ∃ f : Fin E.length → Fin A.length,
    (∀ a b, a < b → f a < f b) ∧ ∀ k, A.get (f k) = E.get k

/-- The list `E` occurs in `A` as a contiguous block starting at some offset `j`. -/
def OccursContiguouslyIn {α : Type} (E A : List α) : Prop :=
  ∃ j, j + E.length ≤ A.length ∧ ∀ k, k < E.length → A[j + k]? = E[k]?

/-- The relation between the cursors that the loop of `matchSliceSequence` keeps:
the `mi` expected elements matched so far are the `mi` actual elements right
before the cursor `i`. -/
def SeqInv {α : Type} (E A : List α) (i mi : Nat) : Prop :=
  mi ≤ i ∧ ∀ k p, k < mi → p + mi = i + k → A[p]? = E[k]?

/-- A matcher's `result` on `actual` comes about without a panic: either `actual` is
not sequence-shaped and the result is the shape error, or `actual` holds some `A`
and the helper with its bounds checks, run on `A`, returns `result` normally. -/
def RunsWithoutPanic {α : Type} (checked : List α → Except String (Option String))
    (actual : Actual α) (result : Option String) : Prop :=
  (actual.isSequence = false ∧ result = some "was not a slice or array")
    ∨ ∃ A, SequenceOf actual A ∧ checked A = Except.ok result

/-! ## Sample collaborators over the integers, used to evaluate the matchers -/

/-- A comparator in the role of `internal.Equal` on integers. -/
def sampleEqual (expected actual : Int) : Option String :=
  if expected = actual then none else some "was not equal"

/-- A matcher constructor in the role of `is.EqualTo` on integers. -/
def sampleEqualTo (expected : Int) : Matcher Int :=
  NewMatcher "value equal to" fun actual => sampleEqual expected actual

/-- A matcher constructor in the role of `is.OneOf` on integers. -/
def sampleOneOf (expected : List Int) : Matcher Int :=
  NewMatcher "value one of" fun actual =>
    if actual ∈ expected then none else some "was not one of"

/-- The `%v` rendering of an integer. -/
def sampleRender (v : Int) : String := toString v

/-- A matcher on integers that accepts every value. -/
def sampleAnything : Matcher Int := NewMatcher "anything" fun _ => none

/-- A matcher on integers that accepts the non-negative values. -/
def sampleNonNegative : Matcher Int :=
  NewMatcher "value not below zero" fun actual =>
    if 0 ≤ actual then none else some "was negative"

/-- The slice `make([]struct{}, 1<<45)`: `2^45` values of the zero-size type
`struct{}`, which occupy no memory. -/
def longSlice : List Unit := List.replicate (2 ^ 45) ()

/-- A matcher on `struct{}` values that accepts every value. -/
def unitAnything : Matcher Unit := NewMatcher "anything" fun _ => none

/-- A matcher on integers that accepts only `3` and names the value it rejects. -/
def sampleThree : Matcher Int :=
  NewMatcher "value equal to three" fun actual =>
    if actual = 3 then none
    else if actual = 1 then some "was one"
    else if actual = 2 then some "was two"
    else some "was something else"

/-! ## The loops of `everyInSliceMatch` and `anyInSliceMatch` -/

theorem everyLoop_fail {α : Type} (M : Matcher α) (A : List α) (i : Nat) (err : String)
    (h : i < A.length) (hm : M.Match A[i] = some err) :
    everyInSliceMatch.loop M A i
      = LoopExit.returned (some ("contained an item where " ++ err)) := by
  rw [everyInSliceMatch.loop]; simp [h, hm]

theorem everyLoop_pass {α : Type} (M : Matcher α) (A : List α) (i : Nat)
    (h : i < A.length) (hm : M.Match A[i] = none) :
    everyInSliceMatch.loop M A i = everyInSliceMatch.loop M A (i + 1) := by
  rw [everyInSliceMatch.loop]; simp [h, hm]

theorem everyLoop_end {α : Type} (M : Matcher α) (A : List α) (i : Nat)
    (h : ¬ i < A.length) :
    everyInSliceMatch.loop M A i = LoopExit.finished () := by
  rw [everyInSliceMatch.loop]; simp [h]

/-- The loop of `everyInSliceMatch` runs to its end exactly when the inner matcher
accepts every element from the start index on. -/
theorem everyLoop_finished_iff {α : Type} (M : Matcher α) (A : List α) (i : Nat) :
    everyInSliceMatch.loop M A i = LoopExit.finished ()
      ↔ ∀ k (hk : k < A.length), i ≤ k → M.Match A[k] = none := by
  induction i using everyInSliceMatch.loop.induct M A with
  | case1 x h err hm =>
    rw [everyLoop_fail M A x err h hm]
    constructor
    · intro hc; cases hc
    · intro hall
      have := hall x h (Nat.le_refl x)
      rw [hm] at this; cases this
  | case2 x h hm ih =>
    rw [everyLoop_pass M A x h hm, ih]
    constructor
    · intro hall k hk hle
      rcases Nat.eq_or_lt_of_le hle with heq | hlt
      · subst heq; exact hm
      · exact hall k hk hlt
    · intro hall k hk hle
      exact hall k hk (by omega)
  | case3 x h =>
    rw [everyLoop_end M A x h]
    constructor
    · intro _ k hk hle; omega
    · intro _; rfl

/-- When the inner matcher first fails at index `k`, the loop of `everyInSliceMatch`
started at or before `k` returns that element's reason, wrapped. -/
theorem everyLoop_first_failure {α : Type} (M : Matcher α) (A : List α) (k : Nat)
    (r : String) (hk : k < A.length) (hfail : M.Match A[k] = some r)
    (hbefore : ∀ j (hj : j < A.length), j < k → M.Match A[j] = none) :
    ∀ d i, i + d = k →
      everyInSliceMatch.loop M A i
        = LoopExit.returned (some ("contained an item where " ++ r)) := by
  intro d
  induction d with
  | zero =>
    intro i hi
    have : i = k := by omega
    subst this
    exact everyLoop_fail M A i r hk hfail
  | succ d ih =>
    intro i hi
    have hil : i < A.length := by omega
    rw [everyLoop_pass M A i hil (hbefore i hil (by omega))]
    exact ih (i + 1) (by omega)

theorem anyLoop_hit {α : Type} (M : Matcher α) (A : List α) (i : Nat) (errs : List String)
    (h : i < A.length) (hm : M.Match A[i] = none) :
    anyInSliceMatch.loop M A i errs = LoopExit.returned none := by
  rw [anyInSliceMatch.loop]; simp [h, hm]

theorem anyLoop_miss {α : Type} (M : Matcher α) (A : List α) (i : Nat) (errs : List String)
    (err : String) (h : i < A.length) (hm : M.Match A[i] = some err) :
    anyInSliceMatch.loop M A i errs = anyInSliceMatch.loop M A (i + 1) (errs ++ [err]) := by
  rw [anyInSliceMatch.loop]; simp [h, hm]

theorem anyLoop_end {α : Type} (M : Matcher α) (A : List α) (i : Nat) (errs : List String)
    (h : ¬ i < A.length) :
    anyInSliceMatch.loop M A i errs = LoopExit.finished errs := by
  rw [anyInSliceMatch.loop]; simp [h]

/-- The loop of `anyInSliceMatch` either returns `nil`, which happens exactly when
the inner matcher accepts some element from the start index on, or runs to its end. -/
theorem anyLoop_cases {α : Type} (M : Matcher α) (A : List α) (i : Nat)
    (errs : List String) :
    (anyInSliceMatch.loop M A i errs = LoopExit.returned none
        ∧ ∃ k, ∃ hk : k < A.length, i ≤ k ∧ M.Match A[k] = none)
      ∨ ((∃ out, anyInSliceMatch.loop M A i errs = LoopExit.finished out)
        ∧ ∀ k (hk : k < A.length), i ≤ k → M.Match A[k] ≠ none) := by
  induction i, errs using anyInSliceMatch.loop.induct M A with
  | case1 i errs h hm =>
    exact Or.inl ⟨anyLoop_hit M A i errs h hm, i, h, Nat.le_refl i, hm⟩
  | case2 i errs h err hm ih =>
    rw [anyLoop_miss M A i errs err h hm]
    rcases ih with ⟨hr, k, hk, hle, hkm⟩ | ⟨hf, hall⟩
    · exact Or.inl ⟨hr, k, hk, by omega, hkm⟩
    · refine Or.inr ⟨hf, ?_⟩
      intro k hk hle
      rcases Nat.eq_or_lt_of_le hle with heq | hlt
      · subst heq; rw [hm]; simp
      · exact hall k hk hlt
  | case3 i errs h =>
    rw [anyLoop_end M A i errs h]
    exact Or.inr ⟨⟨errs, rfl⟩, fun k hk hle => by omega⟩

/-- A `return` inside the loop of `everyInSliceMatch` always carries an error. -/
theorem everyLoop_returned_ne_none {α : Type} (M : Matcher α) (A : List α) (i : Nat) :
    everyInSliceMatch.loop M A i ≠ LoopExit.returned none := by
  induction i using everyInSliceMatch.loop.induct M A with
  | case1 x h err hm => rw [everyLoop_fail M A x err h hm]; simp
  | case2 x h hm ih => rw [everyLoop_pass M A x h hm]; exact ih
  | case3 x h => rw [everyLoop_end M A x h]; simp

/-- The function `everyInSliceMatch` returns `nil` exactly on a non-empty slice all
of whose elements the inner matcher accepts. -/
theorem everyInSliceMatch_eq_none_iff {α : Type} (M : Matcher α) (A : List α) :
    everyInSliceMatch M A = none ↔ A ≠ [] ∧ ∀ a ∈ A, M.Match a = none := by
  unfold everyInSliceMatch
  by_cases hlen : A.length = 0
  · have hA : A = [] := List.length_eq_zero.mp hlen
    simp [hA]
  · have hA : A ≠ [] := fun h => hlen (by simp [h])
    simp only [hlen, if_false]
    have key := everyLoop_finished_iff M A 0
    constructor
    · intro h
      refine ⟨hA, ?_⟩
      have hfin : everyInSliceMatch.loop M A 0 = LoopExit.finished () := by
        cases hl : everyInSliceMatch.loop M A 0 with
        | finished u => rfl
        | returned err =>
          rw [hl] at h
          simp only at h
          subst h
          exact absurd hl (everyLoop_returned_ne_none M A 0)
      intro a ha
      obtain ⟨k, hk, rfl⟩ := List.mem_iff_getElem.mp ha
      exact key.mp hfin k hk (Nat.zero_le k)
    · rintro ⟨_, hall⟩
      have hfin : everyInSliceMatch.loop M A 0 = LoopExit.finished () :=
        key.mpr fun k hk _ => hall _ (List.getElem_mem hk)
      rw [hfin]

/-- The function `anyInSliceMatch` returns `nil` exactly when the inner matcher
accepts some element of the slice (which is then non-empty). -/
theorem anyInSliceMatch_eq_none_iff {α : Type} (M : Matcher α) (A : List α) :
    anyInSliceMatch M A = none ↔ ∃ a ∈ A, M.Match a = none := by
  unfold anyInSliceMatch
  by_cases hlen : A.length = 0
  · have hA : A = [] := List.length_eq_zero.mp hlen
    simp [hA]
  · simp only [hlen, if_false]
    rcases anyLoop_cases M A 0 [] with ⟨hr, k, hk, _, hkm⟩ | ⟨⟨out, hf⟩, hall⟩
    · rw [hr]
      simp only [true_iff]
      exact ⟨A[k], List.getElem_mem hk, hkm⟩
    · rw [hf]
      constructor
      · intro h
        simp only at h
        by_cases h1 : out.length = 1
        · simp [h1] at h
        · simp [h1] at h
      · rintro ⟨a, ha, ham⟩
        obtain ⟨k, hk, rfl⟩ := List.mem_iff_getElem.mp ha
        exact absurd ham (hall k hk (Nat.zero_le k))

/-- The `range` loop of `Items` returns `nil` exactly when every expected value is
found by `anyInSliceMatch`. -/
theorem itemsLoop_eq_none_iff {α : Type} (EqualTo : α → Matcher α) (A E : List α) :
    Items.loop EqualTo A E = none
      ↔ ∀ e ∈ E, anyInSliceMatch (EqualTo e) A = none := by
  induction E with
  | nil => simp [Items.loop]
  | cons ex rest ih =>
    unfold Items.loop
    cases hx : anyInSliceMatch (EqualTo ex) A with
    | none => simp [ih, hx]
    | some err => simp [hx]

/-! ## The loop of `matchSliceSequence` -/

theorem seqLoop_match_done {α : Type} (Equal : α → α → Option String) (E A : List α)
    (i mi : Nat) (h : i < A.length ∧ mi < E.length)
    (hm : Equal (E.get ⟨mi, h.2⟩) (A.get ⟨i, h.1⟩) = none) (hlast : mi + 1 = E.length) :
    matchSliceSequence.loop Equal E A i mi = LoopExit.returned none := by
  rw [matchSliceSequence.loop]
  simp only [List.get_eq_getElem] at hm
  simp [h, hm, hlast]

theorem seqLoop_match_more {α : Type} (Equal : α → α → Option String) (E A : List α)
    (i mi : Nat) (h : i < A.length ∧ mi < E.length)
    (hm : Equal (E.get ⟨mi, h.2⟩) (A.get ⟨i, h.1⟩) = none) (hlast : ¬ mi + 1 = E.length) :
    matchSliceSequence.loop Equal E A i mi
      = matchSliceSequence.loop Equal E A (i + 1) (mi + 1) := by
  rw [matchSliceSequence.loop]
  simp only [List.get_eq_getElem] at hm
  simp [h, hm, hlast]

theorem seqLoop_miss_zero {α : Type} (Equal : α → α → Option String) (E A : List α)
    (i : Nat) (err : String) (h : i < A.length ∧ 0 < E.length)
    (hm : Equal (E.get ⟨0, h.2⟩) (A.get ⟨i, h.1⟩) = some err) :
    matchSliceSequence.loop Equal E A i 0 = matchSliceSequence.loop Equal E A (i + 1) 0 := by
  rw [matchSliceSequence.loop]
  simp only [List.get_eq_getElem] at hm
  simp [h, hm]

theorem seqLoop_miss_reset {α : Type} (Equal : α → α → Option String) (E A : List α)
    (i mi : Nat) (err : String) (h : i < A.length ∧ mi < E.length)
    (hm : Equal (E.get ⟨mi, h.2⟩) (A.get ⟨i, h.1⟩) = some err) (hpos : ¬ mi = 0) :
    matchSliceSequence.loop Equal E A i mi = matchSliceSequence.loop Equal E A i 0 := by
  rw [matchSliceSequence.loop]
  simp only [List.get_eq_getElem] at hm
  simp [h, hm, hpos]

theorem seqLoop_end {α : Type} (Equal : α → α → Option String) (E A : List α)
    (i mi : Nat) (h : ¬ (i < A.length ∧ mi < E.length)) :
    matchSliceSequence.loop Equal E A i mi = LoopExit.finished (i, mi) := by
  rw [matchSliceSequence.loop]
  simp [h]

theorem seqInv_zero {α : Type} (E A : List α) (i : Nat) : SeqInv E A i 0 :=
  ⟨Nat.zero_le i, fun k _ hk _ => absurd hk (Nat.not_lt_zero k)⟩

theorem seqInv_succ {α : Type} (E A : List α) (i mi : Nat) (hinv : SeqInv E A i mi)
    (h : i < A.length ∧ mi < E.length) (heq : E.get ⟨mi, h.2⟩ = A.get ⟨i, h.1⟩) :
    SeqInv E A (i + 1) (mi + 1) := by
  refine ⟨by have := hinv.1; omega, ?_⟩
  intro k p hk hp
  rcases Nat.lt_or_ge k mi with hlt | hge
  · exact hinv.2 k p hlt (by omega)
  · have hkm : k = mi := by omega
    have hpi : p = i := by omega
    subst hkm; subst hpi
    rw [List.getElem?_eq_getElem h.1, List.getElem?_eq_getElem h.2]
    simp only [List.get_eq_getElem] at heq
    rw [heq]

/-- A `return` inside the loop of `matchSliceSequence` is always `return nil`. -/
theorem seqLoop_returned_none {α : Type} (Equal : α → α → Option String) (E A : List α)
    (i mi : Nat) (err : Option String)
    (hret : matchSliceSequence.loop Equal E A i mi = LoopExit.returned err) : err = none := by
  induction i, mi using matchSliceSequence.loop.induct Equal E A with
  | case1 i mi h hm hlast =>
    rw [seqLoop_match_done Equal E A i mi h hm hlast] at hret
    cases hret; rfl
  | case2 i mi h hm hlast ih =>
    rw [seqLoop_match_more Equal E A i mi h hm hlast] at hret
    exact ih hret
  | case3 i err0 h hm ih =>
    rw [seqLoop_miss_zero Equal E A i err0 h hm] at hret
    exact ih hret
  | case4 i mi h err0 hm hpos ih =>
    rw [seqLoop_miss_reset Equal E A i mi err0 h hm hpos] at hret
    exact ih hret
  | case5 i mi h =>
    rw [seqLoop_end Equal E A i mi h] at hret
    cases hret

/-- When the loop of `matchSliceSequence` runs to its end from a state with an
expected element outstanding, an expected element is still outstanding. -/
theorem seqLoop_finished_lt {α : Type} (Equal : α → α → Option String) (E A : List α)
    (i mi : Nat) (hmi : mi < E.length) (fi fm : Nat)
    (hfin : matchSliceSequence.loop Equal E A i mi = LoopExit.finished (fi, fm)) :
    fm < E.length := by
  induction i, mi using matchSliceSequence.loop.induct Equal E A with
  | case1 i mi h hm hlast =>
    rw [seqLoop_match_done Equal E A i mi h hm hlast] at hfin
    cases hfin
  | case2 i mi h hm hlast ih =>
    rw [seqLoop_match_more Equal E A i mi h hm hlast] at hfin
    exact ih (by omega) hfin
  | case3 i err0 h hm ih =>
    rw [seqLoop_miss_zero Equal E A i err0 h hm] at hfin
    exact ih hmi hfin
  | case4 i mi h err0 hm hpos ih =>
    rw [seqLoop_miss_reset Equal E A i mi err0 h hm hpos] at hfin
    exact ih (by omega) hfin
  | case5 i mi h =>
    rw [seqLoop_end Equal E A i mi h] at hfin
    cases hfin
    exact hmi

/-- For a non-empty `expected`, `matchSliceSequence` returns `nil` exactly when its
loop leaves through `return nil`. -/
theorem matchSliceSequence_eq_none_iff {α : Type} (Equal : α → α → Option String)
    (render : α → String) (E A : List α) (hE : E ≠ []) :
    matchSliceSequence Equal render E A = none
      ↔ matchSliceSequence.loop Equal E A 0 0 = LoopExit.returned none := by
  have hpos : 0 < E.length := List.length_pos.mpr hE
  unfold matchSliceSequence
  cases hl : matchSliceSequence.loop Equal E A 0 0 with
  | returned err =>
    have := seqLoop_returned_none Equal E A 0 0 err hl
    subst this
    simp
  | finished st =>
    obtain ⟨fi, fm⟩ := st
    have hlt := seqLoop_finished_lt Equal E A 0 0 hpos fi fm hl
    simp only [hlt, dite_true]
    constructor
    · intro h
      split at h <;> cases h
    · intro h
      cases h

/-- Soundness of the scan: if the loop returns, started in a state satisfying the
invariant, then `expected` occurs in `actual` as a contiguous block. -/
theorem seqLoop_returned_occurs {α : Type} (Equal : α → α → Option String) (E A : List α)
    (hEq : ∀ a b, Equal a b = none → a = b) (i mi : Nat) (hinv : SeqInv E A i mi)
    (err : Option String)
    (hret : matchSliceSequence.loop Equal E A i mi = LoopExit.returned err) :
    OccursContiguouslyIn E A := by
  induction i, mi using matchSliceSequence.loop.induct Equal E A with
  | case1 i mi h hm hlast =>
    have hnext := seqInv_succ E A i mi hinv h (hEq _ _ hm)
    refine ⟨i - mi, by have := hinv.1; omega, ?_⟩
    intro k hk
    exact hnext.2 k (i - mi + k) (by omega) (by have := hinv.1; omega)
  | case2 i mi h hm hlast ih =>
    rw [seqLoop_match_more Equal E A i mi h hm hlast] at hret
    exact ih (seqInv_succ E A i mi hinv h (hEq _ _ hm)) hret
  | case3 i err0 h hm ih =>
    rw [seqLoop_miss_zero Equal E A i err0 h hm] at hret
    exact ih (seqInv_zero E A (i + 1)) hret
  | case4 i mi h err0 hm hpos ih =>
    rw [seqLoop_miss_reset Equal E A i mi err0 h hm hpos] at hret
    exact ih (seqInv_zero E A i) hret
  | case5 i mi h =>
    rw [seqLoop_end Equal E A i mi h] at hret
    cases hret

/-- Completeness of the scan when the first expected value does not recur in
`expected`: from a state satisfying the invariant whose attempt starts no later
than an occurrence of `expected` at offset `j`, the loop returns `nil`. -/
theorem seqLoop_complete {α : Type} (Equal : α → α → Option String) (E A : List α)
    (hEq : ∀ a b, Equal a b = none ↔ a = b)
    (hnr : ∀ k, 0 < k → k < E.length → E[k]? ≠ E[0]?)
    (j : Nat) (hocc : ∀ k, k < E.length → A[j + k]? = E[k]?) (hj : j + E.length ≤ A.length)
    (i mi : Nat) (hinv : SeqInv E A i mi) (hmi : mi < E.length) (hstart : i ≤ j + mi) :
    matchSliceSequence.loop Equal E A i mi = LoopExit.returned none := by
  induction i, mi using matchSliceSequence.loop.induct Equal E A with
  | case1 i mi h hm hlast => exact seqLoop_match_done Equal E A i mi h hm hlast
  | case2 i mi h hm hlast ih =>
    rw [seqLoop_match_more Equal E A i mi h hm hlast]
    exact ih (seqInv_succ E A i mi hinv h ((hEq _ _).mp hm)) (by omega) (by omega)
  | case3 i err0 h hm ih =>
    rw [seqLoop_miss_zero Equal E A i err0 h hm]
    have hne : i ≠ j := by
      intro hij
      have h0 := hocc 0 h.2
      rw [Nat.add_zero, ← hij, List.getElem?_eq_getElem h.1, List.getElem?_eq_getElem h.2] at h0
      have h1 := Option.some.inj h0
      rw [(hEq _ _).mpr h1.symm] at hm
      cases hm
    exact ih (seqInv_zero E A (i + 1)) hmi (by omega)
  | case4 i mi h err0 hm hpos ih =>
    rw [seqLoop_miss_reset Equal E A i mi err0 h hm hpos]
    apply ih (seqInv_zero E A i) (by omega)
    by_contra hlt
    have hji : j < i := by omega
    by_cases hfull : i = j + mi
    · have h1 := hocc mi h.2
      rw [← hfull, List.getElem?_eq_getElem h.1, List.getElem?_eq_getElem h.2] at h1
      have h2 := Option.some.inj h1
      rw [(hEq _ _).mpr h2.symm] at hm
      cases hm
    · have h0 := hocc 0 (by omega)
      have hrun := hinv.2 (j + mi - i) j (by omega) (by omega)
      simp only [Nat.add_zero] at h0
      rw [h0] at hrun
      exact hnr (j + mi - i) (by omega) (by omega) hrun.symm
  | case5 i mi h =>
    exfalso
    apply h
    exact ⟨by omega, hmi⟩

/-- Elements appended after the actual slice do not undo a `return nil` of the scan. -/
theorem seqLoop_append {α : Type} (Equal : α → α → Option String) (E A S : List α)
    (i mi : Nat)
    (hret : matchSliceSequence.loop Equal E A i mi = LoopExit.returned none) :
    matchSliceSequence.loop Equal E (A ++ S) i mi = LoopExit.returned none := by
  induction i, mi using matchSliceSequence.loop.induct Equal E A with
  | case1 i mi h hm hlast =>
    have h2 : i < (A ++ S).length ∧ mi < E.length := ⟨by simp; omega, h.2⟩
    have hget : (A ++ S).get ⟨i, h2.1⟩ = A.get ⟨i, h.1⟩ := by
      simp only [List.get_eq_getElem]; exact List.getElem_append_left h.1
    exact seqLoop_match_done Equal E (A ++ S) i mi h2 (by rw [hget]; exact hm) hlast
  | case2 i mi h hm hlast ih =>
    have h2 : i < (A ++ S).length ∧ mi < E.length := ⟨by simp; omega, h.2⟩
    have hget : (A ++ S).get ⟨i, h2.1⟩ = A.get ⟨i, h.1⟩ := by
      simp only [List.get_eq_getElem]; exact List.getElem_append_left h.1
    rw [seqLoop_match_more Equal E A i mi h hm hlast] at hret
    rw [seqLoop_match_more Equal E (A ++ S) i mi h2 (by rw [hget]; exact hm) hlast]
    exact ih hret
  | case3 i err0 h hm ih =>
    have h2 : i < (A ++ S).length ∧ 0 < E.length := ⟨by simp; omega, h.2⟩
    have hget : (A ++ S).get ⟨i, h2.1⟩ = A.get ⟨i, h.1⟩ := by
      simp only [List.get_eq_getElem]; exact List.getElem_append_left h.1
    rw [seqLoop_miss_zero Equal E A i err0 h hm] at hret
    rw [seqLoop_miss_zero Equal E (A ++ S) i err0 h2 (by rw [hget]; exact hm)]
    exact ih hret
  | case4 i mi h err0 hm hpos ih =>
    have h2 : i < (A ++ S).length ∧ mi < E.length := ⟨by simp; omega, h.2⟩
    have hget : (A ++ S).get ⟨i, h2.1⟩ = A.get ⟨i, h.1⟩ := by
      simp only [List.get_eq_getElem]; exact List.getElem_append_left h.1
    rw [seqLoop_miss_reset Equal E A i mi err0 h hm hpos] at hret
    rw [seqLoop_miss_reset Equal E (A ++ S) i mi err0 h2 (by rw [hget]; exact hm) hpos]
    exact ih hret
  | case5 i mi h =>
    rw [seqLoop_end Equal E A i mi h] at hret
    cases hret

/-- A contiguous occurrence is in particular a subsequence. -/
theorem occurs_isSubsequenceOf {α : Type} (E A : List α) (h : OccursContiguouslyIn E A) :
    IsSubsequenceOf E A := by
  obtain ⟨j, hj, hocc⟩ := h
  refine ⟨fun k => ⟨j + k.val, by have := k.isLt; omega⟩, ?_, ?_⟩
  · intro a b hab
    have : a.val < b.val := hab
    show j + a.val < j + b.val
    omega
  · intro k
    have h1 := hocc k.val k.isLt
    rw [List.getElem?_eq_getElem (by have := k.isLt; omega),
      List.getElem?_eq_getElem k.isLt] at h1
    simp only [List.get_eq_getElem]
    exact Option.some.inj h1

/-- A contiguous occurrence survives elements put before and after the slice. -/
theorem occurs_append {α : Type} (E A P S : List α) (h : OccursContiguouslyIn E A) :
    OccursContiguouslyIn E (P ++ A ++ S) := by
  obtain ⟨j, hj, hocc⟩ := h
  refine ⟨P.length + j, by simp; omega, ?_⟩
  intro k hk
  rw [← hocc k hk, List.append_assoc, Nat.add_assoc,
    List.getElem?_append_right (by omega)]
  have : P.length + (j + k) - P.length = j + k := by omega
  rw [this, List.getElem?_append_left (by omega)]

/-- The matcher built by `Sequence` on a sequence-shaped value is `matchSliceSequence`. -/
theorem Sequence_succeeds_iff {α : Type} (Equal : α → α → Option String)
    (render : α → String) (E A : List α) (actual : Actual α)
    (hA : SequenceOf actual A) (hE : E ≠ []) :
    Succeeds (Sequence Equal render E) actual
      ↔ matchSliceSequence.loop Equal E A 0 0 = LoopExit.returned none := by
  have hlen : ¬ E.length = 0 := fun h => hE (List.length_eq_zero.mp h)
  rw [← matchSliceSequence_eq_none_iff Equal render E A hE]
  unfold Succeeds Sequence
  simp only [hlen, if_false]
  constructor
  · rintro ⟨m, hm, hres⟩
    cases hm
    rcases hA with rfl | rfl <;> simpa [NewMatcher] using hres
  · intro h
    refine ⟨_, rfl, ?_⟩
    rcases hA with rfl | rfl <;> simpa [NewMatcher] using h

/-- On a sequence-shaped value the matcher built by `Sequence` either succeeds or
fails, and not both. -/
theorem Sequence_fails_iff {α : Type} (Equal : α → α → Option String)
    (render : α → String) (E : List α) (actual : Actual α) (hE : E ≠ []) :
    Fails (Sequence Equal render E) actual ↔ ¬ Succeeds (Sequence Equal render E) actual := by
  have hlen : ¬ E.length = 0 := fun h => hE (List.length_eq_zero.mp h)
  unfold Fails Succeeds Sequence
  simp only [hlen, if_false]
  constructor
  · rintro ⟨m, r, hm, hres⟩ ⟨m2, hm2, hres2⟩
    cases hm; cases hm2
    rw [hres] at hres2; cases hres2
  · intro h
    cases hres : (NewMatcher ("values equal to <" ++ renderSlice render E ++ "> in order")
        fun actual =>
          match actual with
          | Actual.array elems => matchSliceSequence Equal render E elems
          | Actual.slice elems => matchSliceSequence Equal render E elems
          | Actual.other _ => some "was not a slice or array").Match actual with
    | none => exact absurd ⟨_, rfl, hres⟩ h
    | some r => exact ⟨_, r, rfl, hres⟩

/-! ## The sample collaborators behave as the claims assume -/

theorem sampleEqual_eq_none_iff (a b : Int) : sampleEqual a b = none ↔ a = b := by
  unfold sampleEqual
  by_cases h : a = b <;> simp [h]

theorem sampleEqualTo_eq_none_iff (x a : Int) : (sampleEqualTo x).Match a = none ↔ a = x := by
  unfold sampleEqualTo NewMatcher sampleEqual
  by_cases h : x = a
  · simp [h]
  · simp [h]; exact fun h2 => h h2.symm

/-! ## Claims about `Sequence` -/

/-- C1 (counterexample): with an exact comparator, `[1,2,3]` is a subsequence of
`[1,5,2,3]` (at the indices 0, 2, 3), yet `Sequence(1,2,3)` does not succeed on the
slice `[1,5,2,3]`: the mismatch at index 1 resets `matchIndex` to 0. -/
theorem Sequence_rejects_noncontiguous_subsequence :
    (∀ a b : Int, sampleEqual a b = none ↔ a = b)
      ∧ IsSubsequenceOf [(1 : Int), 2, 3] [1, 5, 2, 3]
      ∧ ¬ Succeeds (Sequence sampleEqual sampleRender [1, 2, 3]) (Actual.slice [1, 5, 2, 3]) := by
  refine ⟨sampleEqual_eq_none_iff, ?_, ?_⟩
  · show ∃ f : Fin 3 → Fin 4, (∀ a b, a < b → f a < f b)
        ∧ ∀ k, [(1 : Int), 5, 2, 3].get (f k) = [(1 : Int), 2, 3].get k
    exact ⟨![0, 2, 3], by decide, by decide⟩
  · rw [Sequence_succeeds_iff sampleEqual sampleRender _ [1, 5, 2, 3] _ (Or.inr rfl) (by simp)]
    simp [matchSliceSequence.loop, sampleEqual]

/-- C1 (amended): for a non-empty `E`, an exact comparator and a sequence-shaped
actual value holding `A`, `Sequence(E)` succeeds only if `E` occurs in `A` as a
contiguous block (so in particular only if `E` is a subsequence of `A`); and when
the first value of `E` does not recur later in `E`, every contiguous occurrence
of `E` in `A` makes `Sequence(E)` succeed. -/
theorem Sequence_succeeds_contiguous {α : Type} (Equal : α → α → Option String)
    (render : α → String) (E A : List α) (actual : Actual α)
    (hA : SequenceOf actual A) (hE : E ≠ [])
    (hEq : ∀ a b, Equal a b = none ↔ a = b) :
    (Succeeds (Sequence Equal render E) actual
        → OccursContiguouslyIn E A ∧ IsSubsequenceOf E A)
      ∧ ((∀ k, 0 < k → k < E.length → E[k]? ≠ E[0]?)
        → OccursContiguouslyIn E A → Succeeds (Sequence Equal render E) actual) := by
  rw [Sequence_succeeds_iff Equal render E A actual hA hE]
  constructor
  · intro h
    have hocc := seqLoop_returned_occurs Equal E A (fun a b => (hEq a b).mp) 0 0
      (seqInv_zero E A 0) none h
    exact ⟨hocc, occurs_isSubsequenceOf E A hocc⟩
  · rintro hnr ⟨j, hj, hocc⟩
    exact seqLoop_complete Equal E A hEq hnr j hocc hj 0 0 (seqInv_zero E A 0)
      (List.length_pos.mpr hE) (by omega)

/-- C1 (witness): `Sequence(1,2,3)` succeeds on the slice `[5,1,2,3,4]`, in which
`[1,2,3]` occurs at offset 1. -/
theorem Sequence_succeeds_contiguous_witness :
    SequenceOf (Actual.slice [(5 : Int), 1, 2, 3, 4]) [5, 1, 2, 3, 4]
      ∧ [(1 : Int), 2, 3] ≠ []
      ∧ (∀ a b : Int, sampleEqual a b = none ↔ a = b)
      ∧ Succeeds (Sequence sampleEqual sampleRender [1, 2, 3])
          (Actual.slice [5, 1, 2, 3, 4]) :=
  ⟨Or.inr rfl, by simp, sampleEqual_eq_none_iff,
    (Sequence_succeeds_contiguous sampleEqual sampleRender [1, 2, 3] [5, 1, 2, 3, 4]
      (Actual.slice [5, 1, 2, 3, 4]) (Or.inr rfl) (by simp) sampleEqual_eq_none_iff).2
      (by
        intro k h0 hk
        have hk3 : k < 3 := hk
        interval_cases k <;> simp)
      ⟨1, by simp, by
        intro k hk
        have hk3 : k < 3 := hk
        interval_cases k <;> simp⟩⟩

/-- C2 (counterexample): `Sequence(1,2,3)` succeeds on the slice `[1,2,3]`, and
`[1,2,3]` is a subsequence of `[1,5,2,3]` (one element inserted), yet
`Sequence(1,2,3)` does not succeed on the slice `[1,5,2,3]`. -/
theorem Sequence_insertion_breaks_match :
    Succeeds (Sequence sampleEqual sampleRender [1, 2, 3]) (Actual.slice [1, 2, 3])
      ∧ IsSubsequenceOf [(1 : Int), 2, 3] [1, 5, 2, 3]
      ∧ ¬ Succeeds (Sequence sampleEqual sampleRender [1, 2, 3])
          (Actual.slice [1, 5, 2, 3]) := by
  refine ⟨?_, ?_, ?_⟩
  · rw [Sequence_succeeds_iff sampleEqual sampleRender _ [1, 2, 3] _ (Or.inr rfl) (by simp)]
    simp [matchSliceSequence.loop, sampleEqual]
  · show ∃ f : Fin 3 → Fin 4, (∀ a b, a < b → f a < f b)
        ∧ ∀ k, [(1 : Int), 5, 2, 3].get (f k) = [(1 : Int), 2, 3].get k
    exact ⟨![0, 2, 3], by decide, by decide⟩
  · rw [Sequence_succeeds_iff sampleEqual sampleRender _ [1, 5, 2, 3] _ (Or.inr rfl) (by simp)]
    simp [matchSliceSequence.loop, sampleEqual]

/-- C2 (amended): for a non-empty `E`, if `Sequence(E)` succeeds on a
sequence-shaped value holding `A` then it succeeds on every sequence-shaped value
holding `A` followed by further elements `S`; and when the comparator is exact and
the first value of `E` does not recur later in `E`, it also succeeds when elements
are put before and after `A`. Elements inserted between those of `A` may break
the match. -/
theorem Sequence_succeeds_extend {α : Type} (Equal : α → α → Option String)
    (render : α → String) (E A P S : List α) (actual after around : Actual α)
    (hA : SequenceOf actual A) (hAfter : SequenceOf after (A ++ S))
    (hAround : SequenceOf around (P ++ A ++ S)) (hE : E ≠ []) :
    (Succeeds (Sequence Equal render E) actual → Succeeds (Sequence Equal render E) after)
      ∧ ((∀ a b, Equal a b = none ↔ a = b)
        → (∀ k, 0 < k → k < E.length → E[k]? ≠ E[0]?)
        → Succeeds (Sequence Equal render E) actual
        → Succeeds (Sequence Equal render E) around) := by
  rw [Sequence_succeeds_iff Equal render E A actual hA hE,
    Sequence_succeeds_iff Equal render E (A ++ S) after hAfter hE,
    Sequence_succeeds_iff Equal render E (P ++ A ++ S) around hAround hE]
  constructor
  · exact seqLoop_append Equal E A S 0 0
  · intro hEq hnr h
    have hocc := seqLoop_returned_occurs Equal E A (fun a b => (hEq a b).mp) 0 0
      (seqInv_zero E A 0) none h
    obtain ⟨j, hj, hocc2⟩ := occurs_append E A P S hocc
    exact seqLoop_complete Equal E (P ++ A ++ S) hEq hnr j hocc2 hj 0 0
      (seqInv_zero E (P ++ A ++ S) 0) (List.length_pos.mpr hE) (by omega)

/-- C2 (witness): `Sequence(1,2,3)` succeeds on the slice `[1,2,3]`, hence on the
slice `[1,2,3,9]` and on the array `[7,1,2,3,9]`. -/
theorem Sequence_succeeds_extend_witness :
    SequenceOf (Actual.slice [(1 : Int), 2, 3]) [1, 2, 3]
      ∧ SequenceOf (Actual.slice [(1 : Int), 2, 3, 9]) ([1, 2, 3] ++ [9])
      ∧ SequenceOf (Actual.array [(7 : Int), 1, 2, 3, 9]) ([7] ++ [1, 2, 3] ++ [9])
      ∧ [(1 : Int), 2, 3] ≠ []
      ∧ Succeeds (Sequence sampleEqual sampleRender [1, 2, 3]) (Actual.slice [1, 2, 3, 9])
      ∧ Succeeds (Sequence sampleEqual sampleRender [1, 2, 3])
          (Actual.array [7, 1, 2, 3, 9]) :=
  have hsucc : Succeeds (Sequence sampleEqual sampleRender [1, 2, 3])
      (Actual.slice [1, 2, 3]) := by
    rw [Sequence_succeeds_iff sampleEqual sampleRender _ [1, 2, 3] _ (Or.inr rfl) (by simp)]
    simp [matchSliceSequence.loop, sampleEqual]
  have hthm := Sequence_succeeds_extend sampleEqual sampleRender [1, 2, 3] [1, 2, 3] [7] [9]
    (Actual.slice [1, 2, 3]) (Actual.slice [1, 2, 3, 9]) (Actual.array [7, 1, 2, 3, 9])
    (Or.inr rfl) (Or.inr rfl) (Or.inl rfl) (by simp)
  ⟨Or.inr rfl, Or.inr rfl, Or.inl rfl, by simp, hthm.1 hsucc,
    hthm.2 sampleEqual_eq_none_iff
      (by
        intro k h0 hk
        have hk3 : k < 3 := hk
        interval_cases k <;> simp)
      hsucc⟩

/-- C3: for a non-empty `E`, an exact comparator and a sequence-shaped actual value
holding `A`, if `E` is not a subsequence of `A` then `Sequence(E)` fails on it. -/
theorem Sequence_fails_of_not_subsequence {α : Type} (Equal : α → α → Option String)
    (render : α → String) (E A : List α) (actual : Actual α)
    (hA : SequenceOf actual A) (hE : E ≠ [])
    (hEq : ∀ a b, Equal a b = none ↔ a = b) (hsub : ¬ IsSubsequenceOf E A) :
    Fails (Sequence Equal render E) actual := by
  rw [Sequence_fails_iff Equal render E actual hE,
    Sequence_succeeds_iff Equal render E A actual hA hE]
  intro h
  exact hsub (occurs_isSubsequenceOf E A
    (seqLoop_returned_occurs Equal E A (fun a b => (hEq a b).mp) 0 0
      (seqInv_zero E A 0) none h))

/-- C3 (witness): `Sequence(1,1,2)` fails on the slice `[1,2]`, of which `[1,1,2]`
is not a subsequence, and `Sequence(1,2,3)` fails on the slice `[2,1,3]`, of which
`[1,2,3]` is not a subsequence. -/
theorem Sequence_fails_of_not_subsequence_witness :
    SequenceOf (Actual.slice [(1 : Int), 2]) [1, 2]
      ∧ [(1 : Int), 1, 2] ≠ []
      ∧ (∀ a b : Int, sampleEqual a b = none ↔ a = b)
      ∧ ¬ IsSubsequenceOf [(1 : Int), 1, 2] [1, 2]
      ∧ Fails (Sequence sampleEqual sampleRender [1, 1, 2]) (Actual.slice [1, 2])
      ∧ ¬ IsSubsequenceOf [(1 : Int), 2, 3] [2, 1, 3]
      ∧ Fails (Sequence sampleEqual sampleRender [1, 2, 3]) (Actual.slice [2, 1, 3]) :=
  have hsub : ¬ IsSubsequenceOf [(1 : Int), 1, 2] [1, 2] := by
    rintro ⟨f, hmono, _⟩
    have h01 : f ⟨0, by simp⟩ < f ⟨1, by simp⟩ := hmono _ _ (by simp)
    have h12 : f ⟨1, by simp⟩ < f ⟨2, by simp⟩ := hmono _ _ (by simp)
    have hlt : (f ⟨2, by simp⟩).val < 2 := (f ⟨2, by simp⟩).isLt
    have h01v : (f ⟨0, by simp⟩).val < (f ⟨1, by simp⟩).val := h01
    have h12v : (f ⟨1, by simp⟩).val < (f ⟨2, by simp⟩).val := h12
    omega
  have hsub2 : ¬ IsSubsequenceOf [(1 : Int), 2, 3] [2, 1, 3] := by
    rintro ⟨f, hmono, hval⟩
    have h01 : f ⟨0, by simp⟩ < f ⟨1, by simp⟩ := hmono _ _ (by simp)
    have h12 : f ⟨1, by simp⟩ < f ⟨2, by simp⟩ := hmono _ _ (by simp)
    have hlt : (f ⟨2, by simp⟩).val < 3 := (f ⟨2, by simp⟩).isLt
    have h01v : (f ⟨0, by simp⟩).val < (f ⟨1, by simp⟩).val := h01
    have h12v : (f ⟨1, by simp⟩).val < (f ⟨2, by simp⟩).val := h12
    have hzero : f ⟨0, by simp⟩ = ⟨0, by simp⟩ :=
      Fin.ext (by show (f ⟨0, by simp⟩).val = 0; omega)
    have h0 := hval ⟨0, by simp⟩
    rw [hzero] at h0
    simp at h0
  ⟨Or.inr rfl, by simp, sampleEqual_eq_none_iff, hsub,
    Sequence_fails_of_not_subsequence sampleEqual sampleRender [1, 1, 2] [1, 2]
      (Actual.slice [1, 2]) (Or.inr rfl) (by simp) sampleEqual_eq_none_iff hsub,
    hsub2,
    Sequence_fails_of_not_subsequence sampleEqual sampleRender [1, 2, 3] [2, 1, 3]
      (Actual.slice [2, 1, 3]) (Or.inr rfl) (by simp) sampleEqual_eq_none_iff hsub2⟩

/-! ## Claims about the element-wise and membership matchers -/

theorem EveryItemMatching_match {α : Type} (M : Matcher α) (A : List α) (actual : Actual α)
    (hA : SequenceOf actual A) :
    (EveryItemMatching M).Match actual = everyInSliceMatch M A := by
  rcases hA with rfl | rfl <;> rfl

theorem AnyItemMatching_match {α : Type} (M : Matcher α) (A : List α) (actual : Actual α)
    (hA : SequenceOf actual A) :
    (AnyItemMatching M).Match actual = anyInSliceMatch M A := by
  rcases hA with rfl | rfl <;> rfl

/-- C4: on a sequence-shaped actual value holding `A`, `EveryItemMatching(M)`
succeeds if and only if `A` is non-empty and `M` succeeds on every element. -/
theorem EveryItemMatching_succeeds_iff {α : Type} (M : Matcher α) (A : List α)
    (actual : Actual α) (hA : SequenceOf actual A) :
    (EveryItemMatching M).Match actual = none
      ↔ A ≠ [] ∧ ∀ a ∈ A, M.Match a = none := by
  rw [EveryItemMatching_match M A actual hA]
  exact everyInSliceMatch_eq_none_iff M A

/-- C4 (witness): `EveryItemMatching` of the non-negativity matcher on `[1,0,2]`. -/
theorem EveryItemMatching_succeeds_iff_witness :
    SequenceOf (Actual.slice [(1 : Int), 0, 2]) [1, 0, 2]
      ∧ (EveryItemMatching sampleNonNegative).Match (Actual.slice [1, 0, 2]) = none :=
  ⟨Or.inr rfl,
    (EveryItemMatching_succeeds_iff sampleNonNegative [1, 0, 2] (Actual.slice [1, 0, 2])
      (Or.inr rfl)).mpr ⟨by simp, by simp [sampleNonNegative, NewMatcher]⟩⟩

/-- C5: on a sequence-shaped actual value holding `A`, `AnyItemMatching(M)`
succeeds if and only if `A` is non-empty and `M` succeeds on some element. -/
theorem AnyItemMatching_succeeds_iff {α : Type} (M : Matcher α) (A : List α)
    (actual : Actual α) (hA : SequenceOf actual A) :
    (AnyItemMatching M).Match actual = none
      ↔ A ≠ [] ∧ ∃ a ∈ A, M.Match a = none := by
  rw [AnyItemMatching_match M A actual hA, anyInSliceMatch_eq_none_iff]
  constructor
  · rintro ⟨a, ha, hm⟩
    exact ⟨List.ne_nil_of_mem ha, a, ha, hm⟩
  · rintro ⟨_, h⟩
    exact h

/-- C5 (witness): `AnyItemMatching` of the non-negativity matcher on `[-1,0,-2]`. -/
theorem AnyItemMatching_succeeds_iff_witness :
    SequenceOf (Actual.array [(-1 : Int), 0, -2]) [-1, 0, -2]
      ∧ (AnyItemMatching sampleNonNegative).Match (Actual.array [-1, 0, -2]) = none :=
  ⟨Or.inl rfl,
    (AnyItemMatching_succeeds_iff sampleNonNegative [-1, 0, -2] (Actual.array [-1, 0, -2])
      (Or.inl rfl)).mpr ⟨by simp, by simp [sampleNonNegative, NewMatcher]⟩⟩

/-- C6: for a non-empty `E`, an `EqualTo` that succeeds exactly on equal values and
a sequence-shaped actual value holding `A`, `Items(E)` succeeds if and only if
every value of `E` equals some element of `A`. -/
theorem Items_succeeds_iff {α : Type} (EqualTo : α → Matcher α) (render : α → String)
    (E A : List α) (actual : Actual α) (hA : SequenceOf actual A) (hE : E ≠ [])
    (hEq : ∀ x a, (EqualTo x).Match a = none ↔ a = x) :
    Succeeds (Items EqualTo render E) actual ↔ ∀ e ∈ E, e ∈ A := by
  have hlen : ¬ E.length = 0 := fun h => hE (List.length_eq_zero.mp h)
  have hloop : Items.loop EqualTo A E = none ↔ ∀ e ∈ E, e ∈ A := by
    rw [itemsLoop_eq_none_iff]
    refine forall_congr' fun e => forall_congr' fun _ => ?_
    rw [anyInSliceMatch_eq_none_iff]
    constructor
    · rintro ⟨a, ha, hm⟩
      rw [hEq] at hm
      exact hm ▸ ha
    · intro he
      exact ⟨e, he, (hEq e e).mpr rfl⟩
  rw [← hloop]
  unfold Succeeds Items
  simp only [hlen, if_false]
  constructor
  · rintro ⟨m, hm, hres⟩
    cases hm
    rcases hA with rfl | rfl <;> simpa [NewMatcher] using hres
  · intro h
    refine ⟨_, rfl, ?_⟩
    rcases hA with rfl | rfl <;> simpa [NewMatcher] using h

/-- C6 (witness): `Items(1,2)` succeeds on `[2,1,3]` and `Items(1,1)` on `[1]`. -/
theorem Items_succeeds_iff_witness :
    SequenceOf (Actual.slice [(2 : Int), 1, 3]) [2, 1, 3]
      ∧ [(1 : Int), 2] ≠ []
      ∧ (∀ x a : Int, (sampleEqualTo x).Match a = none ↔ a = x)
      ∧ Succeeds (Items sampleEqualTo sampleRender [1, 2]) (Actual.slice [2, 1, 3])
      ∧ Succeeds (Items sampleEqualTo sampleRender [1, 1]) (Actual.slice [1]) :=
  ⟨Or.inr rfl, by simp, sampleEqualTo_eq_none_iff,
    (Items_succeeds_iff sampleEqualTo sampleRender [1, 2] [2, 1, 3] (Actual.slice [2, 1, 3])
      (Or.inr rfl) (by simp) sampleEqualTo_eq_none_iff).mpr (by simp),
    (Items_succeeds_iff sampleEqualTo sampleRender [1, 1] [1] (Actual.slice [1])
      (Or.inr rfl) (by simp) sampleEqualTo_eq_none_iff).mpr (by simp)⟩

/-- C7: on an actual value that is neither an array nor a slice, each of
`EveryItemMatching(M)`, `AnyItemMatching(M)`, `Item(x)`, `ItemIn(xs)`, `Items(E)`
and `Sequence(E)` (the last two for a non-empty `E`) fails with exactly the reason
"was not a slice or array", whatever `M`, `x`, `xs` and `E` are. -/
theorem not_sequence_reason {α : Type} (M : Matcher α) (EqualTo : α → Matcher α)
    (OneOf : List α → Matcher α) (Equal : α → α → Option String) (render : α → String)
    (x : α) (xs E : List α) (actual : Actual α)
    (hshape : actual.isSequence = false) (hE : E ≠ []) :
    (EveryItemMatching M).Match actual = some "was not a slice or array"
      ∧ (AnyItemMatching M).Match actual = some "was not a slice or array"
      ∧ (Item EqualTo x).Match actual = some "was not a slice or array"
      ∧ (ItemIn OneOf xs).Match actual = some "was not a slice or array"
      ∧ (∃ m, Items EqualTo render E = Except.ok m
          ∧ m.Match actual = some "was not a slice or array")
      ∧ (∃ m, Sequence Equal render E = Except.ok m
          ∧ m.Match actual = some "was not a slice or array") := by
  have hlen : ¬ E.length = 0 := fun h => hE (List.length_eq_zero.mp h)
  cases actual with
  | array elems => cases hshape
  | slice elems => cases hshape
  | other v =>
    refine ⟨rfl, rfl, rfl, rfl, ?_, ?_⟩
    · unfold Items
      simp only [hlen, if_false]
      exact ⟨_, rfl, rfl⟩
    · unfold Sequence
      simp only [hlen, if_false]
      exact ⟨_, rfl, rfl⟩

/-- C7 (witness): the six matchers on the scalar `7`. -/
theorem not_sequence_reason_witness :
    (Actual.other (7 : Int)).isSequence = false
      ∧ [(1 : Int), 2] ≠ []
      ∧ (EveryItemMatching sampleAnything).Match (Actual.other 7)
          = some "was not a slice or array"
      ∧ (∃ m, Sequence sampleEqual sampleRender [1, 2] = Except.ok m
          ∧ m.Match (Actual.other 7) = some "was not a slice or array") :=
  have h := not_sequence_reason sampleAnything sampleEqualTo sampleOneOf sampleEqual
    sampleRender 7 [7] [1, 2] (Actual.other 7) rfl (by simp)
  ⟨rfl, by simp, h.1, h.2.2.2.2.2⟩

/-- C8: for every inner matcher `M`, `EveryItemMatching(M)` and `AnyItemMatching(M)`
both fail on an empty sequence-shaped value with exactly the reason "was empty". -/
theorem empty_sequence_reason {α : Type} (M : Matcher α) (actual : Actual α)
    (hA : SequenceOf actual []) :
    (EveryItemMatching M).Match actual = some "was empty"
      ∧ (AnyItemMatching M).Match actual = some "was empty" := by
  rw [EveryItemMatching_match M [] actual hA, AnyItemMatching_match M [] actual hA]
  exact ⟨rfl, rfl⟩

/-- C8 (witness): even the matcher that accepts everything fails on the empty slice. -/
theorem empty_sequence_reason_witness :
    SequenceOf (Actual.slice ([] : List Int)) []
      ∧ (EveryItemMatching sampleAnything).Match (Actual.slice []) = some "was empty"
      ∧ (AnyItemMatching sampleAnything).Match (Actual.slice []) = some "was empty" :=
  ⟨Or.inr rfl, empty_sequence_reason sampleAnything (Actual.slice []) (Or.inr rfl)⟩

/-- C9: `Items(E)` and `Sequence(E)` panic exactly when `E` is empty, and return a
matcher exactly when `E` is non-empty. -/
theorem constructors_panic_iff_empty {α : Type} (EqualTo : α → Matcher α)
    (Equal : α → α → Option String) (render : α → String) (E : List α) :
    ((∃ msg, Items EqualTo render E = Except.error msg) ↔ E = [])
      ∧ ((∃ msg, Sequence Equal render E = Except.error msg) ↔ E = [])
      ∧ ((∃ m, Items EqualTo render E = Except.ok m) ↔ E ≠ [])
      ∧ ((∃ m, Sequence Equal render E = Except.ok m) ↔ E ≠ []) := by
  unfold Items Sequence
  cases E with
  | nil => simp
  | cons e rest => simp

/-- When `k` is the lowest index at which the inner matcher fails, with reason
`r`, `everyInSliceMatch` returns that reason, wrapped. -/
theorem everyInSliceMatch_first_failure {α : Type} (M : Matcher α) (A : List α) (k : Nat)
    (r : String) (hfail : (A[k]?).bind M.Match = some r)
    (hbefore : ∀ j, j < k → (A[j]?).bind M.Match = none) :
    everyInSliceMatch M A = some ("contained an item where " ++ r) := by
  have hk : k < A.length := by
    by_contra hnot
    rw [List.getElem?_eq_none (by omega)] at hfail
    cases hfail
  have hlen : ¬ A.length = 0 := by omega
  rw [List.getElem?_eq_getElem hk] at hfail
  have hloop := everyLoop_first_failure M A k r hk hfail
    (fun j hj hjk => by
      have := hbefore j hjk
      rw [List.getElem?_eq_getElem hj] at this
      exact this) k 0 (by omega)
  unfold everyInSliceMatch
  simp only [hlen, if_false]
  rw [hloop]

/-- C10: on a sequence-shaped actual value holding `A` in which the inner matcher
`M` fails for some element, there is a lowest failing index `k`, with reason `r`,
and `EveryItemMatching(M)` fails with exactly "contained an item where " followed
by `r`; it returns the same on every sequence-shaped value that agrees with `A`
on the elements up to and including index `k`. -/
theorem EveryItemMatching_first_failure {α : Type} (M : Matcher α) (A : List α)
    (actual : Actual α) (hA : SequenceOf actual A)
    (hsome : ∃ a ∈ A, M.Match a ≠ none) :
    ∃ k, ∃ hk : k < A.length, ∃ r,
      M.Match (A.get ⟨k, hk⟩) = some r
        ∧ (∀ j (hj : j < k), M.Match (A.get ⟨j, Nat.lt_trans hj hk⟩) = none)
        ∧ (EveryItemMatching M).Match actual = some ("contained an item where " ++ r)
        ∧ ∀ (B : List α) (other : Actual α), SequenceOf other B →
            B.take (k + 1) = A.take (k + 1) →
            (EveryItemMatching M).Match other
              = some ("contained an item where " ++ r) := by
  classical
  have hex : ∃ k, ∃ hk : k < A.length, M.Match (A.get ⟨k, hk⟩) ≠ none := by
    obtain ⟨a, ha, hm⟩ := hsome
    obtain ⟨k, hk, rfl⟩ := List.mem_iff_getElem.mp ha
    exact ⟨k, hk, hm⟩
  obtain ⟨hk, hkm⟩ := Nat.find_spec hex
  have hmin : ∀ j, j < Nat.find hex → ∀ hj : j < A.length, M.Match (A.get ⟨j, hj⟩) = none := by
    intro j hj hjl
    by_contra hne
    exact Nat.find_min hex hj ⟨hjl, hne⟩
  obtain ⟨r, hr⟩ := Option.ne_none_iff_exists'.mp hkm
  refine ⟨Nat.find hex, hk, r, hr, fun j hj => hmin j hj _, ?_, ?_⟩
  · rw [EveryItemMatching_match M A actual hA]
    apply everyInSliceMatch_first_failure M A (Nat.find hex) r
    · rw [List.getElem?_eq_getElem hk]; exact hr
    · intro j hj
      rw [List.getElem?_eq_getElem (Nat.lt_trans hj hk)]
      exact hmin j hj _
  · intro B other hB htake
    rw [EveryItemMatching_match M B other hB]
    have hsame : ∀ j, j < Nat.find hex + 1 → B[j]? = A[j]? := by
      intro j hj
      rw [← List.getElem?_take_of_lt hj, htake, List.getElem?_take_of_lt hj]
    apply everyInSliceMatch_first_failure M B (Nat.find hex) r
    · rw [hsame _ (by omega), List.getElem?_eq_getElem hk]; exact hr
    · intro j hj
      rw [hsame _ (by omega), List.getElem?_eq_getElem (Nat.lt_trans hj hk)]
      exact hmin j hj _

/-- C10 (witness): on `[1,-2,3,-4]` the non-negativity matcher first fails at
index 1, and `EveryItemMatching` reports that element's reason. -/
theorem EveryItemMatching_first_failure_witness :
    SequenceOf (Actual.slice [(1 : Int), -2, 3, -4]) [1, -2, 3, -4]
      ∧ (∃ a ∈ [(1 : Int), -2, 3, -4], sampleNonNegative.Match a ≠ none)
      ∧ ∃ k, ∃ hk : k < [(1 : Int), -2, 3, -4].length, ∃ r,
          sampleNonNegative.Match ([(1 : Int), -2, 3, -4].get ⟨k, hk⟩) = some r
            ∧ (EveryItemMatching sampleNonNegative).Match (Actual.slice [1, -2, 3, -4])
              = some ("contained an item where " ++ r) :=
  have hsome : ∃ a ∈ [(1 : Int), -2, 3, -4], sampleNonNegative.Match a ≠ none :=
    ⟨-2, by simp, by simp [sampleNonNegative, NewMatcher]⟩
  ⟨Or.inr rfl, hsome,
    (EveryItemMatching_first_failure sampleNonNegative [1, -2, 3, -4]
      (Actual.slice [1, -2, 3, -4]) (Or.inr rfl) hsome).imp
      fun _ h => h.imp fun _ h2 => h2.imp fun _ h3 => ⟨h3.1, h3.2.2.1⟩⟩

/-! ## Failure reasons of `AnyItemMatching`, `Items`, `Item` and `ItemIn` -/

/-- When the inner matcher fails on every element, with the reasons `rs` in index
order, the loop of `anyInSliceMatch` runs to its end having appended the reasons
of the elements it visited. -/
theorem anyLoop_all_fail {α : Type} (M : Matcher α) (A : List α) (rs : List String)
    (hrs : A.map M.Match = rs.map some) (i : Nat) (errs : List String) :
    anyInSliceMatch.loop M A i errs = LoopExit.finished (errs ++ rs.drop i) := by
  have hlen : A.length = rs.length := by
    have := congrArg List.length hrs
    simpa using this
  have hget : ∀ k (hk : k < A.length), M.Match A[k] = some (rs.get ⟨k, hlen ▸ hk⟩) := by
    intro k hk
    have h1 : (A.map M.Match)[k]? = (rs.map some)[k]? := by rw [hrs]
    rw [List.getElem?_map, List.getElem?_map, List.getElem?_eq_getElem hk,
      List.getElem?_eq_getElem (hlen ▸ hk)] at h1
    simpa using h1
  induction i, errs using anyInSliceMatch.loop.induct M A with
  | case1 i errs h hm =>
    rw [hget i h] at hm
    cases hm
  | case2 i errs h err hm ih =>
    rw [anyLoop_miss M A i errs err h hm, ih]
    have herr : err = rs.get ⟨i, hlen ▸ h⟩ := by
      have := hget i h
      rw [hm] at this
      exact Option.some.inj this
    have hdrop : rs.drop i = rs.get ⟨i, hlen ▸ h⟩ :: rs.drop (i + 1) := by
      simp only [List.get_eq_getElem]
      exact List.drop_eq_getElem_cons (hlen ▸ h)
    rw [hdrop, herr]
    simp
  | case3 i errs h =>
    rw [anyLoop_end M A i errs h]
    have : rs.drop i = [] := List.drop_eq_nil_of_le (by omega)
    rw [this]
    simp

/-- The result of `anyInSliceMatch` on a non-empty slice all of whose elements the
inner matcher rejects, with the reasons `rs` in index order. -/
theorem anyInSliceMatch_all_fail {α : Type} (M : Matcher α) (A : List α) (rs : List String)
    (hne : A ≠ []) (hrs : A.map M.Match = rs.map some) :
    anyInSliceMatch M A
      = if h : rs.length = 1 then some ("contained an item where " ++ rs.get ⟨0, by omega⟩)
        else some ("no item matched where [\n          "
          ++ ",\n          ".intercalate rs ++ "\n          ]") := by
  have hlen : ¬ A.length = 0 := fun h => hne (List.length_eq_zero.mp h)
  unfold anyInSliceMatch
  simp only [hlen, if_false]
  rw [anyLoop_all_fail M A rs hrs 0 []]
  simp

/-- C11: on a non-empty sequence-shaped actual value holding `A`, on every element
of which `M` fails, with the reasons `rs` in index order: if there is one element,
`AnyItemMatching(M)` fails with "contained an item where " followed by its
reason; if there are several, it fails with the framed list of all the reasons,
in index order, joined by a comma, a newline and ten spaces. -/
theorem AnyItemMatching_all_fail_reason {α : Type} (M : Matcher α) (A : List α)
    (actual : Actual α) (rs : List String) (hA : SequenceOf actual A) (hne : A ≠ [])
    (hrs : A.map M.Match = rs.map some) :
    (∀ r0, rs = [r0] →
        (AnyItemMatching M).Match actual = some ("contained an item where " ++ r0))
      ∧ (1 < rs.length →
        (AnyItemMatching M).Match actual
          = some ("no item matched where [\n          "
              ++ ",\n          ".intercalate rs ++ "\n          ]")) := by
  rw [AnyItemMatching_match M A actual hA, anyInSliceMatch_all_fail M A rs hne hrs]
  constructor
  · intro r0 h0
    subst h0
    simp
  · intro h1
    have : ¬ rs.length = 1 := by omega
    simp [this]

/-- C11 (witness): the matcher for `3` on the slice `[1,2,4]` lists the three
reasons in index order; on the slice `[2]` it reports the single reason. -/
theorem AnyItemMatching_all_fail_reason_witness :
    SequenceOf (Actual.slice [(1 : Int), 2, 4]) [1, 2, 4]
      ∧ [(1 : Int), 2, 4] ≠ []
      ∧ [(1 : Int), 2, 4].map sampleThree.Match
          = ["was one", "was two", "was something else"].map some
      ∧ (AnyItemMatching sampleThree).Match (Actual.slice [1, 2, 4])
          = some ("no item matched where [\n          "
              ++ ",\n          ".intercalate ["was one", "was two", "was something else"]
              ++ "\n          ]")
      ∧ (AnyItemMatching sampleThree).Match (Actual.slice [2])
          = some ("contained an item where " ++ "was two") :=
  have hrs : [(1 : Int), 2, 4].map sampleThree.Match
      = ["was one", "was two", "was something else"].map some := by
    simp [sampleThree, NewMatcher]
  ⟨Or.inr rfl, by simp, hrs,
    (AnyItemMatching_all_fail_reason sampleThree [1, 2, 4] (Actual.slice [1, 2, 4])
      ["was one", "was two", "was something else"] (Or.inr rfl) (by simp) hrs).2 (by simp),
    (AnyItemMatching_all_fail_reason sampleThree [2] (Actual.slice [2])
      ["was two"] (Or.inr rfl) (by simp) (by simp [sampleThree, NewMatcher])).1 _ rfl⟩

/-- On a sequence-shaped value the matcher built by `Items` runs its `range` loop. -/
theorem Items_match {α : Type} (EqualTo : α → Matcher α) (render : α → String)
    (E A : List α) (actual : Actual α) (hA : SequenceOf actual A) (hE : E ≠ []) :
    ∃ m, Items EqualTo render E = Except.ok m
      ∧ m.Match actual = Items.loop EqualTo A E := by
  have hlen : ¬ E.length = 0 := fun h => hE (List.length_eq_zero.mp h)
  unfold Items
  simp only [hlen, if_false]
  refine ⟨_, rfl, ?_⟩
  rcases hA with rfl | rfl <;> rfl

/-- The `range` loop of `Items` returns what `anyInSliceMatch` returns for the first
expected value that it does not find. -/
theorem itemsLoop_first_missing {α : Type} (EqualTo : α → Matcher α) (A pre post : List α)
    (e : α) (r : String)
    (hpre : ∀ x ∈ pre, anyInSliceMatch (EqualTo x) A = none)
    (he : anyInSliceMatch (EqualTo e) A = some r) :
    Items.loop EqualTo A (pre ++ e :: post) = some r := by
  induction pre with
  | nil => simp [Items.loop, he]
  | cons x rest ih =>
    have hx := hpre x (by simp)
    simp only [List.cons_append, Items.loop, hx]
    exact ih fun y hy => hpre y (by simp [hy])

/-- A list with a member outside `A` splits at its first such member. -/
theorem exists_first_missing {α : Type} (E A : List α) (h : ¬ ∀ e ∈ E, e ∈ A) :
    ∃ pre e post, E = pre ++ e :: post ∧ (∀ x ∈ pre, x ∈ A) ∧ e ∉ A := by
  classical
  induction E with
  | nil => exact absurd (fun e he => absurd he (List.not_mem_nil e)) h
  | cons x rest ih =>
    by_cases hx : x ∈ A
    · have hrest : ¬ ∀ e ∈ rest, e ∈ A := by
        intro hall
        apply h
        intro e he
        rcases List.mem_cons.mp he with rfl | he2
        · exact hx
        · exact hall e he2
      obtain ⟨pre, e, post, hsplit, hpre, he⟩ := ih hrest
      refine ⟨x :: pre, e, post, by simp [hsplit], ?_, he⟩
      intro y hy
      rcases List.mem_cons.mp hy with rfl | hy2
      · exact hx
      · exact hpre y hy2
    · exact ⟨[], x, rest, rfl, fun y hy => absurd hy (List.not_mem_nil y), hx⟩

/-- C13: for a non-empty `E`, an exact `EqualTo` and a sequence-shaped actual value
holding `A` on which `Items(E)` fails, `E` splits at its first value `e` that
equals no element of `A`, and the reason returned is exactly the one `Item(e)`
gives; it is the same whatever values follow `e` in the expected list. -/
theorem Items_failure_reason {α : Type} (EqualTo : α → Matcher α) (render : α → String)
    (E A : List α) (actual : Actual α) (hA : SequenceOf actual A) (hE : E ≠ [])
    (hEq : ∀ x a, (EqualTo x).Match a = none ↔ a = x)
    (hfail : Fails (Items EqualTo render E) actual) :
    ∃ pre e post r, E = pre ++ e :: post ∧ (∀ x ∈ pre, x ∈ A) ∧ e ∉ A
      ∧ (Item EqualTo e).Match actual = some r
      ∧ (∃ m, Items EqualTo render E = Except.ok m ∧ m.Match actual = some r)
      ∧ ∀ post2, ∃ m, Items EqualTo render (pre ++ e :: post2) = Except.ok m
          ∧ m.Match actual = some r := by
  have hfound : ∀ x, anyInSliceMatch (EqualTo x) A = none ↔ x ∈ A := by
    intro x
    rw [anyInSliceMatch_eq_none_iff]
    constructor
    · rintro ⟨a, ha, hm⟩
      rw [hEq] at hm
      exact hm ▸ ha
    · intro hx
      exact ⟨x, hx, (hEq x x).mpr rfl⟩
  obtain ⟨m0, hm0, hmatch0⟩ := Items_match EqualTo render E A actual hA hE
  have hnot : ¬ ∀ e ∈ E, e ∈ A := by
    intro hall
    obtain ⟨m, reason, hm, hres⟩ := hfail
    rw [hm0] at hm
    cases hm
    rw [hmatch0, (itemsLoop_eq_none_iff EqualTo A E).mpr
      (fun e he => (hfound e).mpr (hall e he))] at hres
    cases hres
  obtain ⟨pre, e, post, hsplit, hpre, he⟩ := exists_first_missing E A hnot
  have hsome : ∃ r, anyInSliceMatch (EqualTo e) A = some r := by
    cases hr : anyInSliceMatch (EqualTo e) A with
    | none => exact absurd ((hfound e).mp hr) he
    | some r => exact ⟨r, rfl⟩
  obtain ⟨r, hr⟩ := hsome
  have hloop : ∀ post2, ∃ m, Items EqualTo render (pre ++ e :: post2) = Except.ok m
      ∧ m.Match actual = some r := by
    intro post2
    obtain ⟨m, hm, hmatch⟩ := Items_match EqualTo render (pre ++ e :: post2) A actual hA
      (by simp)
    refine ⟨m, hm, ?_⟩
    rw [hmatch]
    exact itemsLoop_first_missing EqualTo A pre post2 e r
      (fun x hx => (hfound x).mpr (hpre x hx)) hr
  refine ⟨pre, e, post, r, hsplit, hpre, he, ?_, ?_, hloop⟩
  · unfold Item
    rw [AnyItemMatching_match (EqualTo e) A actual hA]
    exact hr
  · rw [hsplit]
    exact hloop post

/-- C13 (witness): `Items(1,4)` fails on the slice `[1,2,3]` with the reason that
`Item(4)` gives there. -/
theorem Items_failure_reason_witness :
    SequenceOf (Actual.slice [(1 : Int), 2, 3]) [1, 2, 3]
      ∧ [(1 : Int), 4] ≠ []
      ∧ (∀ x a : Int, (sampleEqualTo x).Match a = none ↔ a = x)
      ∧ Fails (Items sampleEqualTo sampleRender [1, 4]) (Actual.slice [1, 2, 3])
      ∧ ∃ pre e post r, [(1 : Int), 4] = pre ++ e :: post ∧ e ∉ [(1 : Int), 2, 3]
          ∧ (Item sampleEqualTo e).Match (Actual.slice [1, 2, 3]) = some r
          ∧ ∃ m, Items sampleEqualTo sampleRender [1, 4] = Except.ok m
              ∧ m.Match (Actual.slice [1, 2, 3]) = some r :=
  have hfail : Fails (Items sampleEqualTo sampleRender [1, 4]) (Actual.slice [1, 2, 3]) := by
    obtain ⟨m, hm, hmatch⟩ := Items_match sampleEqualTo sampleRender [1, 4] [1, 2, 3]
      (Actual.slice [1, 2, 3]) (Or.inr rfl) (by simp)
    cases hres : m.Match (Actual.slice [1, 2, 3]) with
    | some r => exact ⟨m, r, hm, hres⟩
    | none =>
      rw [hmatch, itemsLoop_eq_none_iff] at hres
      have h4 := hres 4 (by simp)
      rw [anyInSliceMatch_eq_none_iff] at h4
      obtain ⟨a, ha, hm4⟩ := h4
      rw [sampleEqualTo_eq_none_iff] at hm4
      subst hm4
      simp at ha
  ⟨Or.inr rfl, by simp, sampleEqualTo_eq_none_iff, hfail,
    (Items_failure_reason sampleEqualTo sampleRender [1, 4] [1, 2, 3]
      (Actual.slice [1, 2, 3]) (Or.inr rfl) (by simp) sampleEqualTo_eq_none_iff hfail).imp
      fun _ h => h.imp fun _ h2 => h2.imp fun _ h3 => h3.imp fun _ h4 =>
        ⟨h4.1, h4.2.2.1, h4.2.2.2.1, h4.2.2.2.2.1⟩⟩

/-- C14: on a sequence-shaped actual value holding `A`, with an exact `EqualTo`,
`Item(x)` returns exactly what `AnyItemMatching(EqualTo(x))` returns, and it
succeeds if and only if `x` equals some element of `A`; so it fails on the empty
sequence. -/
theorem Item_succeeds_iff {α : Type} (EqualTo : α → Matcher α) (x : α) (A : List α)
    (actual : Actual α) (hA : SequenceOf actual A)
    (hEq : ∀ y a, (EqualTo y).Match a = none ↔ a = y) :
    (Item EqualTo x).Match actual = (AnyItemMatching (EqualTo x)).Match actual
      ∧ ((Item EqualTo x).Match actual = none ↔ x ∈ A)
      ∧ (A = [] → (Item EqualTo x).Match actual = some "was empty") := by
  refine ⟨rfl, ?_, ?_⟩
  · unfold Item
    rw [AnyItemMatching_match (EqualTo x) A actual hA, anyInSliceMatch_eq_none_iff]
    constructor
    · rintro ⟨a, ha, hm⟩
      rw [hEq] at hm
      exact hm ▸ ha
    · intro hx
      exact ⟨x, hx, (hEq x x).mpr rfl⟩
  · intro hnil
    subst hnil
    unfold Item
    rw [AnyItemMatching_match (EqualTo x) [] actual hA]
    rfl

/-- C14 (witness): `Item(3)` succeeds on the slice `[1,2,3]` and does not succeed
on the slice `[1,2,4]`. -/
theorem Item_succeeds_iff_witness :
    SequenceOf (Actual.slice [(1 : Int), 2, 3]) [1, 2, 3]
      ∧ (∀ y a : Int, (sampleEqualTo y).Match a = none ↔ a = y)
      ∧ (Item sampleEqualTo 3).Match (Actual.slice [1, 2, 3]) = none
      ∧ (Item sampleEqualTo 3).Match (Actual.slice [1, 2, 4]) ≠ none :=
  ⟨Or.inr rfl, sampleEqualTo_eq_none_iff,
    (Item_succeeds_iff sampleEqualTo 3 [1, 2, 3] (Actual.slice [1, 2, 3]) (Or.inr rfl)
      sampleEqualTo_eq_none_iff).2.1.mpr (by simp),
    fun h => absurd
      ((Item_succeeds_iff sampleEqualTo 3 [1, 2, 4] (Actual.slice [1, 2, 4]) (Or.inr rfl)
        sampleEqualTo_eq_none_iff).2.1.mp h) (by simp)⟩

/-- C15: on a sequence-shaped actual value holding `A`, with a `OneOf` that succeeds
exactly on the members of its list, `ItemIn(xs)` succeeds if and only if some
element of `A` equals some member of `xs`. -/
theorem ItemIn_succeeds_iff {α : Type} (OneOf : List α → Matcher α) (xs A : List α)
    (actual : Actual α) (hA : SequenceOf actual A)
    (hOneOf : ∀ ys a, (OneOf ys).Match a = none ↔ a ∈ ys) :
    (ItemIn OneOf xs).Match actual = none ↔ ∃ a ∈ A, ∃ x ∈ xs, a = x := by
  unfold ItemIn
  rw [AnyItemMatching_match (OneOf xs) A actual hA, anyInSliceMatch_eq_none_iff]
  constructor
  · rintro ⟨a, ha, hm⟩
    exact ⟨a, ha, a, (hOneOf xs a).mp hm, rfl⟩
  · rintro ⟨a, ha, x, hx, rfl⟩
    exact ⟨a, ha, (hOneOf xs a).mpr hx⟩

/-- C15 (witness): `ItemIn(7,2)` succeeds on the array `[1,2,3]`. -/
theorem ItemIn_succeeds_iff_witness :
    SequenceOf (Actual.array [(1 : Int), 2, 3]) [1, 2, 3]
      ∧ (∀ (ys : List Int) (a : Int), (sampleOneOf ys).Match a = none ↔ a ∈ ys)
      ∧ (ItemIn sampleOneOf [7, 2]).Match (Actual.array [1, 2, 3]) = none :=
  have hOneOf : ∀ (ys : List Int) (a : Int), (sampleOneOf ys).Match a = none ↔ a ∈ ys := by
    intro ys a
    unfold sampleOneOf NewMatcher
    by_cases h : a ∈ ys <;> simp [h]
  ⟨Or.inl rfl, hOneOf,
    (ItemIn_succeeds_iff sampleOneOf [7, 2] [1, 2, 3] (Actual.array [1, 2, 3]) (Or.inl rfl)
      hOneOf).mpr ⟨2, by simp, 2, by simp, rfl⟩⟩

/-! ## The failure reason of `Sequence` -/

/-- When the loop of `matchSliceSequence` runs to its end from a state inside the
actual slice with an expected element outstanding, the slice is exhausted. -/
theorem seqLoop_finished_exhausted {α : Type} (Equal : α → α → Option String)
    (E A : List α) (i mi : Nat) (hi : i ≤ A.length) (hmi : mi < E.length) (fi fm : Nat)
    (hfin : matchSliceSequence.loop Equal E A i mi = LoopExit.finished (fi, fm)) :
    fi = A.length := by
  induction i, mi using matchSliceSequence.loop.induct Equal E A with
  | case1 i mi h hm hlast =>
    rw [seqLoop_match_done Equal E A i mi h hm hlast] at hfin
    cases hfin
  | case2 i mi h hm hlast ih =>
    rw [seqLoop_match_more Equal E A i mi h hm hlast] at hfin
    exact ih (by omega) (by omega) hfin
  | case3 i err0 h hm ih =>
    rw [seqLoop_miss_zero Equal E A i err0 h hm] at hfin
    exact ih (by omega) hmi hfin
  | case4 i mi h err0 hm hpos ih =>
    rw [seqLoop_miss_reset Equal E A i mi err0 h hm hpos] at hfin
    exact ih hi (by omega) hfin
  | case5 i mi h =>
    rw [seqLoop_end Equal E A i mi h] at hfin
    cases hfin
    omega

/-- What `matchSliceSequence` returns, for a non-empty `expected`, when its loop runs
to its end with the cursors `(fi, k)`: the actual slice is exhausted, `k` expected
elements are matched, and the reason names the outstanding ones. -/
theorem matchSliceSequence_finished {α : Type} (Equal : α → α → Option String)
    (render : α → String) (E A : List α) (hE : E ≠ []) (fi k : Nat)
    (hfin : matchSliceSequence.loop Equal E A 0 0 = LoopExit.finished (fi, k)) :
    k < E.length ∧ fi = A.length
      ∧ matchSliceSequence Equal render E A
        = some (if E.length - k > 1
            then "did not contain <" ++ renderSlice render (E.drop k) ++ ">"
            else "did not contain <" ++ render (E.getLast hE) ++ ">") := by
  have hpos : 0 < E.length := List.length_pos.mpr hE
  have hk := seqLoop_finished_lt Equal E A 0 0 hpos fi k hfin
  have hfi := seqLoop_finished_exhausted Equal E A 0 0 (Nat.zero_le _) hpos fi k hfin
  refine ⟨hk, hfi, ?_⟩
  unfold matchSliceSequence
  rw [hfin]
  simp only [hk, dite_true]
  by_cases hmore : E.length - k > 1
  · simp [hmore]
  · simp only [hmore, if_false]
    have hidx : k = E.length - 1 := by omega
    subst hidx
    rw [List.getLast_eq_getElem]

/-- On a sequence-shaped value the matcher built by `Sequence` runs
`matchSliceSequence`. -/
theorem Sequence_match {α : Type} (Equal : α → α → Option String) (render : α → String)
    (E A : List α) (actual : Actual α) (hA : SequenceOf actual A) (hE : E ≠ []) :
    ∃ m, Sequence Equal render E = Except.ok m
      ∧ m.Match actual = matchSliceSequence Equal render E A := by
  have hlen : ¬ E.length = 0 := fun h => hE (List.length_eq_zero.mp h)
  unfold Sequence
  simp only [hlen, if_false]
  refine ⟨_, rfl, ?_⟩
  rcases hA with rfl | rfl <;> rfl

/-- When `Sequence` fails on a sequence-shaped value, the loop ran to its end. -/
theorem Sequence_fails_finished {α : Type} (Equal : α → α → Option String)
    (render : α → String) (E A : List α) (actual : Actual α) (hA : SequenceOf actual A)
    (hE : E ≠ []) (hfail : Fails (Sequence Equal render E) actual) :
    ∃ fi k, matchSliceSequence.loop Equal E A 0 0 = LoopExit.finished (fi, k) := by
  cases hl : matchSliceSequence.loop Equal E A 0 0 with
  | finished st => exact ⟨st.1, st.2, rfl⟩
  | returned err =>
    have hnone := seqLoop_returned_none Equal E A 0 0 err hl
    subst hnone
    exact absurd ((Sequence_succeeds_iff Equal render E A actual hA hE).mpr hl)
      ((Sequence_fails_iff Equal render E actual hE).mp hfail)

/-- C12: for a non-empty `E` and a sequence-shaped actual value holding `A` on which
`Sequence(E)` fails with `reason`, the scan ended with `A` exhausted and some
`k < len(E)` expected elements matched; `reason` is "did not contain <X>" where
`X` renders the single element `E[len(E)-1]` when `k = len(E)-1` and the list
`E[k:]` when more than one element is outstanding; the reported elements `E[k:]`
are a non-empty suffix of `E`. -/
theorem Sequence_failure_reason {α : Type} (Equal : α → α → Option String)
    (render : α → String) (E A : List α) (actual : Actual α) (hA : SequenceOf actual A)
    (hE : E ≠ []) (m : Matcher (Actual α)) (reason : String)
    (hm : Sequence Equal render E = Except.ok m) (hres : m.Match actual = some reason) :
    ∃ k, k < E.length
      ∧ matchSliceSequence.loop Equal E A 0 0 = LoopExit.finished (A.length, k)
      ∧ (k + 1 = E.length →
          E.drop k = [E.getLast hE]
            ∧ reason = "did not contain <" ++ render (E.getLast hE) ++ ">")
      ∧ (k + 1 < E.length →
          reason = "did not contain <" ++ renderSlice render (E.drop k) ++ ">")
      ∧ E.drop k ≠ [] ∧ E.drop k <:+ E := by
  obtain ⟨fi, k, hfin⟩ := Sequence_fails_finished Equal render E A actual hA hE
    ⟨m, reason, hm, hres⟩
  obtain ⟨hk, hfi, hval⟩ := matchSliceSequence_finished Equal render E A hE fi k hfin
  obtain ⟨m2, hm2, hmatch⟩ := Sequence_match Equal render E A actual hA hE
  rw [hm] at hm2
  cases hm2
  rw [hmatch, hval] at hres
  have hreason := (Option.some.inj hres).symm
  subst hfi
  refine ⟨k, hk, hfin, ?_, ?_, ?_, List.drop_suffix k E⟩
  · intro hlast
    have hnot : ¬ E.length - k > 1 := by omega
    rw [if_neg hnot] at hreason
    refine ⟨?_, hreason⟩
    rw [List.drop_eq_getElem_cons hk, List.getLast_eq_getElem]
    have hidx : k = E.length - 1 := by omega
    subst hidx
    have hnil : List.drop (E.length - 1 + 1) E = [] := List.drop_eq_nil_of_le (by omega)
    rw [hnil]
  · intro hmore
    have hgt : E.length - k > 1 := by omega
    rw [if_pos hgt] at hreason
    exact hreason
  · intro hnil
    have := List.drop_eq_nil_iff.mp hnil
    omega

/-- C12 (witness): `Sequence(1,2,3)` on the slice `[1,2]` fails with
"did not contain <3>", and on the slice `[2,1,3]` it reports the group `[1 2 3]`. -/
theorem Sequence_failure_reason_witness :
    (∃ m, Sequence sampleEqual sampleRender [1, 2, 3] = Except.ok m
        ∧ m.Match (Actual.slice [1, 2]) = some "did not contain <3>")
      ∧ (∃ m, Sequence sampleEqual sampleRender [1, 2, 3] = Except.ok m
        ∧ m.Match (Actual.slice [2, 1, 3]) = some "did not contain <[1 2 3]>") := by
  have hE : [(1 : Int), 2, 3] ≠ [] := by simp
  constructor
  · obtain ⟨m, hm, hmatch⟩ := Sequence_match sampleEqual sampleRender [1, 2, 3] [1, 2]
      (Actual.slice [1, 2]) (Or.inr rfl) hE
    refine ⟨m, hm, ?_⟩
    cases hres : m.Match (Actual.slice [1, 2]) with
    | none =>
      rw [hmatch, matchSliceSequence_eq_none_iff sampleEqual sampleRender _ _ hE] at hres
      simp [matchSliceSequence.loop, sampleEqual] at hres
    | some reason =>
      obtain ⟨k, _, hfin, hone, _, _, _⟩ := Sequence_failure_reason sampleEqual sampleRender
        [1, 2, 3] [1, 2] (Actual.slice [1, 2]) (Or.inr rfl) hE m reason hm hres
      have hk : k = 2 := by
        simp [matchSliceSequence.loop, sampleEqual] at hfin
        omega
      subst hk
      rw [(hone rfl).2]
      rfl
  · obtain ⟨m, hm, hmatch⟩ := Sequence_match sampleEqual sampleRender [1, 2, 3] [2, 1, 3]
      (Actual.slice [2, 1, 3]) (Or.inr rfl) hE
    refine ⟨m, hm, ?_⟩
    cases hres : m.Match (Actual.slice [2, 1, 3]) with
    | none =>
      rw [hmatch, matchSliceSequence_eq_none_iff sampleEqual sampleRender _ _ hE] at hres
      simp [matchSliceSequence.loop, sampleEqual] at hres
    | some reason =>
      obtain ⟨k, _, hfin, _, hmany, _, _⟩ := Sequence_failure_reason sampleEqual sampleRender
        [1, 2, 3] [2, 1, 3] (Actual.slice [2, 1, 3]) (Or.inr rfl) hE m reason hm hres
      have hk : k = 0 := by
        simp [matchSliceSequence.loop, sampleEqual] at hfin
        omega
      subst hk
      rw [hmany (by simp)]
      rfl

/-! ## No bounds check fails -/

theorem everyLoopChecked_eq {α : Type} (M : Matcher α) (A : List α) (i : Nat) :
    everyInSliceMatch.loopChecked M A i = Except.ok (everyInSliceMatch.loop M A i) := by
  induction i using everyInSliceMatch.loop.induct M A with
  | case1 x h err hm =>
    rw [everyLoop_fail M A x err h hm, everyInSliceMatch.loopChecked]
    simp [h, List.getElem?_eq_getElem h, hm]
  | case2 x h hm ih =>
    rw [everyLoop_pass M A x h hm, everyInSliceMatch.loopChecked]
    simp [h, List.getElem?_eq_getElem h, hm, ih]
  | case3 x h =>
    rw [everyLoop_end M A x h, everyInSliceMatch.loopChecked]
    simp [h]

theorem everyInSliceMatchChecked_eq {α : Type} (M : Matcher α) (A : List α) :
    everyInSliceMatchChecked M A = Except.ok (everyInSliceMatch M A) := by
  unfold everyInSliceMatchChecked everyInSliceMatch
  rw [everyLoopChecked_eq]
  by_cases hlen : A.length = 0
  · simp [hlen]
  · simp only [hlen, if_false]
    cases everyInSliceMatch.loop M A 0 <;> rfl

theorem anyLoopChecked_eq {α : Type} (M : Matcher α) (A : List α) (i : Nat)
    (errs : List String) :
    anyInSliceMatch.loopChecked M A i errs
      = Except.ok (anyInSliceMatch.loop M A i errs) := by
  induction i, errs using anyInSliceMatch.loop.induct M A with
  | case1 i errs h hm =>
    rw [anyLoop_hit M A i errs h hm, anyInSliceMatch.loopChecked]
    simp [h, List.getElem?_eq_getElem h, hm]
  | case2 i errs h err hm ih =>
    rw [anyLoop_miss M A i errs err h hm, anyInSliceMatch.loopChecked]
    simp [h, List.getElem?_eq_getElem h, hm, ih]
  | case3 i errs h =>
    rw [anyLoop_end M A i errs h, anyInSliceMatch.loopChecked]
    simp [h]

theorem makeStringSlice_ok (capLimit cap : Nat) (h : cap ≤ capLimit) :
    makeStringSlice capLimit cap = Except.ok [] := by
  unfold makeStringSlice
  rw [if_pos h]

theorem makeStringSlice_panics (capLimit cap : Nat) (h : capLimit < cap) :
    makeStringSlice capLimit cap
      = Except.error "runtime error: makeslice: cap out of range" := by
  unfold makeStringSlice
  rw [if_neg (by omega)]

/-- Within the capacity limit of `make`, no run-time check of `anyInSliceMatch`
fails. -/
theorem anyInSliceMatchChecked_eq {α : Type} (capLimit : Nat) (M : Matcher α) (A : List α)
    (hcap : A.length ≤ capLimit) :
    anyInSliceMatchChecked capLimit M A = Except.ok (anyInSliceMatch M A) := by
  unfold anyInSliceMatchChecked anyInSliceMatch
  rw [makeStringSlice_ok capLimit A.length hcap]
  simp only
  rw [anyLoopChecked_eq]
  by_cases hlen : A.length = 0
  · simp [hlen]
  · simp only [hlen, if_false]
    cases hl : anyInSliceMatch.loop M A 0 [] with
    | returned err => rfl
    | finished errs =>
      simp only
      by_cases h1 : errs.length = 1
      · have h0 : 0 < errs.length := by omega
        simp [h1, List.getElem?_eq_getElem h0]
      · simp [h1]

theorem seqLoopChecked_eq {α : Type} (Equal : α → α → Option String) (E A : List α)
    (i mi : Nat) :
    matchSliceSequence.loopChecked Equal E A i mi
      = Except.ok (matchSliceSequence.loop Equal E A i mi) := by
  induction i, mi using matchSliceSequence.loop.induct Equal E A with
  | case1 i mi h hm hlast =>
    rw [seqLoop_match_done Equal E A i mi h hm hlast, matchSliceSequence.loopChecked]
    simp [h, List.getElem?_eq_getElem h.1, List.getElem?_eq_getElem h.2, hm, hlast]
  | case2 i mi h hm hlast ih =>
    rw [seqLoop_match_more Equal E A i mi h hm hlast, matchSliceSequence.loopChecked]
    simp [h, List.getElem?_eq_getElem h.1, List.getElem?_eq_getElem h.2, hm, hlast, ih]
  | case3 i err0 h hm ih =>
    rw [seqLoop_miss_zero Equal E A i err0 h hm, matchSliceSequence.loopChecked]
    simp [h, List.getElem?_eq_getElem h.1, List.getElem?_eq_getElem h.2, hm, ih]
  | case4 i mi h err0 hm hpos ih =>
    rw [seqLoop_miss_reset Equal E A i mi err0 h hm hpos, matchSliceSequence.loopChecked]
    simp [h, List.getElem?_eq_getElem h.1, List.getElem?_eq_getElem h.2, hm, hpos, ih]
  | case5 i mi h =>
    rw [seqLoop_end Equal E A i mi h, matchSliceSequence.loopChecked]
    simp [h]

theorem matchSliceSequenceChecked_eq {α : Type} (Equal : α → α → Option String)
    (render : α → String) (E A : List α) :
    matchSliceSequenceChecked Equal render E A
      = Except.ok (matchSliceSequence Equal render E A) := by
  unfold matchSliceSequenceChecked matchSliceSequence
  rw [seqLoopChecked_eq]
  cases hl : matchSliceSequence.loop Equal E A 0 0 with
  | returned err => rfl
  | finished st =>
    obtain ⟨fi, fm⟩ := st
    simp only
    by_cases hlt : fm < E.length
    · by_cases hmore : E.length - fm > 1
      · have hle : fm ≤ E.length := by omega
        simp [hlt, hmore, hle]
      · simp [hlt, hmore, List.getElem?_eq_getElem hlt]
    · simp [hlt]

/-- Beyond the capacity limit of `make`, `anyInSliceMatch` panics at line 32, before
it looks at any element. -/
theorem anyInSliceMatchChecked_panics {α : Type} (capLimit : Nat) (M : Matcher α)
    (A : List α) (hcap : capLimit < A.length) :
    anyInSliceMatchChecked capLimit M A
      = Except.error "runtime error: makeslice: cap out of range" := by
  have hlen : ¬ A.length = 0 := by omega
  unfold anyInSliceMatchChecked
  rw [makeStringSlice_panics capLimit A.length hcap, if_neg hlen]

theorem itemsLoopChecked_eq {α : Type} (capLimit : Nat) (EqualTo : α → Matcher α)
    (A E : List α) (hcap : A.length ≤ capLimit) :
    Items.loopChecked capLimit EqualTo A E = Except.ok (Items.loop EqualTo A E) := by
  induction E with
  | nil => rfl
  | cons ex rest ih =>
    unfold Items.loopChecked Items.loop
    rw [anyInSliceMatchChecked_eq capLimit (EqualTo ex) A hcap]
    cases anyInSliceMatch (EqualTo ex) A with
    | none => simpa using ih
    | some err => rfl

theorem itemsLoopChecked_panics {α : Type} (capLimit : Nat) (EqualTo : α → Matcher α)
    (A : List α) (ex : α) (rest : List α) (hcap : capLimit < A.length) :
    Items.loopChecked capLimit EqualTo A (ex :: rest)
      = Except.error "runtime error: makeslice: cap out of range" := by
  unfold Items.loopChecked
  rw [anyInSliceMatchChecked_panics capLimit (EqualTo ex) A hcap]

/-- Every actual value is either not sequence-shaped or holds a list of elements. -/
theorem actual_shape_cases {α : Type} (actual : Actual α) :
    (∃ v, actual = Actual.other v) ∨ ∃ A, SequenceOf actual A := by
  cases actual with
  | array elems => exact Or.inr ⟨elems, Or.inl rfl⟩
  | slice elems => exact Or.inr ⟨elems, Or.inr rfl⟩
  | other v => exact Or.inl ⟨v, rfl⟩

/-- What holds of panics at match time: for every actual value of any shape, every
inner matcher `M` and every non-empty `E`, the matchers built by
`EveryItemMatching` and `Sequence` return their result without a panic, no index
or slice expression being out of range; so do those built by `AnyItemMatching` and
`Items` when the actual value has no more elements than `make` accepts as a
capacity. -/
theorem helpers_panic_only_in_make {α : Type} (capLimit : Nat) (M : Matcher α)
    (EqualTo : α → Matcher α) (Equal : α → α → Option String) (render : α → String)
    (E : List α) (actual : Actual α) (hE : E ≠ []) :
    RunsWithoutPanic (everyInSliceMatchChecked M) actual ((EveryItemMatching M).Match actual)
      ∧ (∃ m, Sequence Equal render E = Except.ok m
          ∧ RunsWithoutPanic (matchSliceSequenceChecked Equal render E) actual
              (m.Match actual))
      ∧ ((∀ A, SequenceOf actual A → A.length ≤ capLimit) →
          RunsWithoutPanic (anyInSliceMatchChecked capLimit M) actual
              ((AnyItemMatching M).Match actual)
            ∧ ∃ m, Items EqualTo render E = Except.ok m
              ∧ RunsWithoutPanic (fun A => Items.loopChecked capLimit EqualTo A E) actual
                  (m.Match actual)) := by
  have hlen : ¬ E.length = 0 := fun h => hE (List.length_eq_zero.mp h)
  rcases actual_shape_cases actual with ⟨v, rfl⟩ | ⟨A, hA⟩
  · refine ⟨Or.inl ⟨rfl, rfl⟩, ?_, fun _ => ⟨Or.inl ⟨rfl, rfl⟩, ?_⟩⟩
    · unfold Sequence
      simp only [hlen, if_false]
      exact ⟨_, rfl, Or.inl ⟨rfl, rfl⟩⟩
    · unfold Items
      simp only [hlen, if_false]
      exact ⟨_, rfl, Or.inl ⟨rfl, rfl⟩⟩
  · refine ⟨Or.inr ⟨A, hA, ?_⟩, ?_, fun hcap => ⟨Or.inr ⟨A, hA, ?_⟩, ?_⟩⟩
    · rw [EveryItemMatching_match M A actual hA]
      exact everyInSliceMatchChecked_eq M A
    · obtain ⟨m, hm, hmatch⟩ := Sequence_match Equal render E A actual hA hE
      refine ⟨m, hm, Or.inr ⟨A, hA, ?_⟩⟩
      rw [hmatch]
      exact matchSliceSequenceChecked_eq Equal render E A
    · rw [AnyItemMatching_match M A actual hA]
      exact anyInSliceMatchChecked_eq capLimit M A (hcap A hA)
    · obtain ⟨m, hm, hmatch⟩ := Items_match EqualTo render E A actual hA hE
      refine ⟨m, hm, Or.inr ⟨A, hA, ?_⟩⟩
      rw [hmatch]
      exact itemsLoopChecked_eq capLimit EqualTo A E (hcap A hA)

theorem longSlice_length : longSlice.length = 2 ^ 45 :=
  List.length_replicate _ _

theorem longSlice_over_limit : 2 ^ 44 < longSlice.length := by
  rw [longSlice_length]
  norm_num

/-- A sequence-shaped value holds one list of elements only. -/
theorem sequenceOf_slice_eq {α : Type} (L A : List α) (h : SequenceOf (Actual.slice L) A) :
    A = L := by
  rcases h with h | h
  · cases h
  · cases h
    rfl

/-- C16 (code bug): on a 64-bit platform, where `make` accepts a capacity of at
most `2^44` strings, and on the slice of `2^45` values of the zero-size type
`struct{}`: for every inner matcher `M`, `anyInSliceMatch` panics in the allocation
of line 32 with "makeslice: cap out of range", so that the call of the matcher
built by `AnyItemMatching(M)` does not come about without a panic; the loop of
`Items` panics in the same way; whereas `everyInSliceMatch`, which allocates
nothing, returns `nil` on the same slice for the matcher that accepts everything. -/
theorem AnyItemMatching_panics_on_long_slice :
    (∀ M : Matcher Unit,
        anyInSliceMatchChecked (2 ^ 44) M longSlice
          = Except.error "runtime error: makeslice: cap out of range")
      ∧ (∀ M : Matcher Unit,
        ¬ RunsWithoutPanic (anyInSliceMatchChecked (2 ^ 44) M) (Actual.slice longSlice)
            ((AnyItemMatching M).Match (Actual.slice longSlice)))
      ∧ (∀ EqualTo : Unit → Matcher Unit,
        Items.loopChecked (2 ^ 44) EqualTo longSlice [()]
          = Except.error "runtime error: makeslice: cap out of range")
      ∧ everyInSliceMatchChecked unitAnything longSlice = Except.ok none := by
  refine ⟨fun M => anyInSliceMatchChecked_panics (2 ^ 44) M longSlice longSlice_over_limit,
    ?_, fun EqualTo => itemsLoopChecked_panics (2 ^ 44) EqualTo longSlice () []
      longSlice_over_limit, ?_⟩
  · intro M hrun
    rcases hrun with ⟨hshape, _⟩ | ⟨A, hA, hok⟩
    · cases hshape
    · have hAL := sequenceOf_slice_eq longSlice A hA
      subst hAL
      rw [anyInSliceMatchChecked_panics (2 ^ 44) M longSlice longSlice_over_limit] at hok
      cases hok
  · rw [everyInSliceMatchChecked_eq]
    have hne : longSlice ≠ [] := by
      intro h
      have h2 := congrArg List.length h
      rw [longSlice_length] at h2
      norm_num at h2
    exact congrArg Except.ok
      ((everyInSliceMatch_eq_none_iff unitAnything longSlice).mpr ⟨hne, fun _ _ => rfl⟩)

/-! ## Termination of the scan -/

theorem seqBody_match {α : Type} (Equal : α → α → Option String) (E A : List α)
    (i mi : Nat) (h : i < A.length ∧ mi < E.length)
    (hm : Equal (E.get ⟨mi, h.2⟩) (A.get ⟨i, h.1⟩) = none) :
    matchSliceSequence.body Equal E A i mi h = (i + 1, mi + 1) := by
  unfold matchSliceSequence.body
  rw [hm]

theorem seqBody_miss_zero {α : Type} (Equal : α → α → Option String) (E A : List α)
    (i : Nat) (err : String) (h : i < A.length ∧ 0 < E.length)
    (hm : Equal (E.get ⟨0, h.2⟩) (A.get ⟨i, h.1⟩) = some err) :
    matchSliceSequence.body Equal E A i 0 h = (i + 1, 0) := by
  unfold matchSliceSequence.body
  rw [hm]
  simp

theorem seqBody_miss_reset {α : Type} (Equal : α → α → Option String) (E A : List α)
    (i mi : Nat) (err : String) (h : i < A.length ∧ mi < E.length)
    (hm : Equal (E.get ⟨mi, h.2⟩) (A.get ⟨i, h.1⟩) = some err) (hpos : ¬ mi = 0) :
    matchSliceSequence.body Equal E A i mi h = (i, 0) := by
  unfold matchSliceSequence.body
  rw [hm]
  simp [hpos]

/-- Each pass through the body of the loop strictly decreases the variant. -/
theorem seqBody_variant_lt {α : Type} (Equal : α → α → Option String) (E A : List α)
    (i mi : Nat) (h : i < A.length ∧ mi < E.length) :
    matchSliceSequence.variant A (matchSliceSequence.body Equal E A i mi h).1
        (matchSliceSequence.body Equal E A i mi h).2
      < matchSliceSequence.variant A i mi := by
  cases hm : Equal (E.get ⟨mi, h.2⟩) (A.get ⟨i, h.1⟩) with
  | none =>
    rw [seqBody_match Equal E A i mi h hm]
    unfold matchSliceSequence.variant
    simp only [Nat.zero_lt_succ, if_true]
    split <;> omega
  | some err =>
    by_cases hpos : mi = 0
    · subst hpos
      rw [seqBody_miss_zero Equal E A i err h hm]
      unfold matchSliceSequence.variant
      simp
      omega
    · rw [seqBody_miss_reset Equal E A i mi err h hm hpos]
      unfold matchSliceSequence.variant
      have : 0 < mi := Nat.pos_of_ne_zero hpos
      simp [this]

/-- The loop of `matchSliceSequence` is the repetition of its body: after a pass it
returns `nil` when all of `expected` is matched and otherwise goes on from the
cursors the pass left. -/
theorem seqLoop_eq_body {α : Type} (Equal : α → α → Option String) (E A : List α)
    (i mi : Nat) (h : i < A.length ∧ mi < E.length) :
    matchSliceSequence.loop Equal E A i mi
      = if (matchSliceSequence.body Equal E A i mi h).2 = E.length
        then LoopExit.returned none
        else matchSliceSequence.loop Equal E A (matchSliceSequence.body Equal E A i mi h).1
          (matchSliceSequence.body Equal E A i mi h).2 := by
  cases hm : Equal (E.get ⟨mi, h.2⟩) (A.get ⟨i, h.1⟩) with
  | none =>
    rw [seqBody_match Equal E A i mi h hm]
    by_cases hlast : mi + 1 = E.length
    · rw [seqLoop_match_done Equal E A i mi h hm hlast]
      simp [hlast]
    · rw [seqLoop_match_more Equal E A i mi h hm hlast]
      simp [hlast]
  | some err =>
    have hne : ¬ 0 = E.length := by omega
    by_cases hpos : mi = 0
    · subst hpos
      rw [seqBody_miss_zero Equal E A i err h hm, seqLoop_miss_zero Equal E A i err h hm]
      simp [hne]
    · rw [seqBody_miss_reset Equal E A i mi err h hm hpos,
        seqLoop_miss_reset Equal E A i mi err h hm hpos]
      simp [hne]

/-- The comparisons still to be made never exceed the variant. -/
theorem seqComparisons_le_variant {α : Type} (Equal : α → α → Option String)
    (E A : List α) (i mi : Nat) :
    matchSliceSequence.comparisons Equal E A i mi ≤ matchSliceSequence.variant A i mi := by
  induction i, mi using matchSliceSequence.loop.induct Equal E A with
  | case1 i mi h hm hlast =>
    rw [matchSliceSequence.comparisons]
    unfold matchSliceSequence.variant
    simp only [h, and_self, dite_true, hm, hlast, if_true]
    omega
  | case2 i mi h hm hlast ih =>
    rw [matchSliceSequence.comparisons]
    unfold matchSliceSequence.variant at ih ⊢
    simp only [h, and_self, dite_true, hm, hlast, if_false]
    simp only [Nat.zero_lt_succ, if_true] at ih
    split <;> omega
  | case3 i err0 h hm ih =>
    rw [matchSliceSequence.comparisons]
    unfold matchSliceSequence.variant at ih ⊢
    simp only [h, and_self, dite_true, hm]
    simp at ih ⊢
    omega
  | case4 i mi h err0 hm hpos ih =>
    rw [matchSliceSequence.comparisons]
    unfold matchSliceSequence.variant at ih ⊢
    have hp : 0 < mi := Nat.pos_of_ne_zero hpos
    simp only [h, and_self, dite_true, hm, hpos, dite_false, hp, if_true]
    simp at ih
    omega
  | case5 i mi h =>
    rw [matchSliceSequence.comparisons]
    simp [h]

/-- How the loop of `matchSliceSequence` ends, started at `(0, 0)`: with `return nil`,
or with all of `expected` matched, or with the actual slice exhausted and an
expected element outstanding. -/
theorem seqLoop_exit {α : Type} (Equal : α → α → Option String) (E A : List α) :
    matchSliceSequence.loop Equal E A 0 0 = LoopExit.returned none
      ∨ (∃ fi, matchSliceSequence.loop Equal E A 0 0 = LoopExit.finished (fi, E.length))
      ∨ ∃ k, k < E.length
          ∧ matchSliceSequence.loop Equal E A 0 0 = LoopExit.finished (A.length, k) := by
  by_cases hE : E = []
  · subst hE
    exact Or.inr (Or.inl ⟨0, seqLoop_end Equal [] A 0 0 (by simp)⟩)
  · have hpos : 0 < E.length := List.length_pos.mpr hE
    cases hl : matchSliceSequence.loop Equal E A 0 0 with
    | returned err =>
      have := seqLoop_returned_none Equal E A 0 0 err hl
      subst this
      exact Or.inl rfl
    | finished st =>
      obtain ⟨fi, fm⟩ := st
      have hfm := seqLoop_finished_lt Equal E A 0 0 hpos fi fm hl
      have hfi := seqLoop_finished_exhausted Equal E A 0 0 (Nat.zero_le _) hpos fi fm hl
      subst hfi
      exact Or.inr (Or.inr ⟨fm, hfm, rfl⟩)

/-- C17: for every expected list `E` and every actual slice `A`, the scan of
`matchSliceSequence` terminates: each pass through the loop body strictly
decreases `2*(len(A) - i) + (1 if matchIndex > 0 else 0)`, the loop is the
repetition of that body, it makes at most `2*len(A)` comparisons, and it ends with
a full match (`return nil`, or `matchIndex = len(E)`) or with `i = len(A)` and
`matchIndex < len(E)`. -/
theorem matchSliceSequence_terminates {α : Type} (Equal : α → α → Option String)
    (E A : List α) :
    (∀ i mi (h : i < A.length ∧ mi < E.length),
        matchSliceSequence.variant A (matchSliceSequence.body Equal E A i mi h).1
            (matchSliceSequence.body Equal E A i mi h).2
          < matchSliceSequence.variant A i mi)
      ∧ (∀ i mi (h : i < A.length ∧ mi < E.length),
        matchSliceSequence.loop Equal E A i mi
          = if (matchSliceSequence.body Equal E A i mi h).2 = E.length
            then LoopExit.returned none
            else matchSliceSequence.loop Equal E A
              (matchSliceSequence.body Equal E A i mi h).1
              (matchSliceSequence.body Equal E A i mi h).2)
      ∧ matchSliceSequence.comparisons Equal E A 0 0 ≤ 2 * A.length
      ∧ (matchSliceSequence.loop Equal E A 0 0 = LoopExit.returned none
        ∨ (∃ fi, matchSliceSequence.loop Equal E A 0 0 = LoopExit.finished (fi, E.length))
        ∨ ∃ k, k < E.length
            ∧ matchSliceSequence.loop Equal E A 0 0 = LoopExit.finished (A.length, k)) := by
  refine ⟨seqBody_variant_lt Equal E A, seqLoop_eq_body Equal E A, ?_, seqLoop_exit Equal E A⟩
  have h := seqComparisons_le_variant Equal E A 0 0
  unfold matchSliceSequence.variant at h
  simpa using h

/-! ## The scan accepts only contiguous blocks, and not all of them -/

/-- C18: for a non-empty `E`, a comparator that succeeds only on equal values and a
sequence-shaped actual value holding `A`, `Sequence(E)` succeeds only if there is
an offset `j` with `j + len(E) <= len(A)` and `A[j+k] = E[k]` for every
`k < len(E)`. -/
theorem Sequence_succeeds_only_contiguous {α : Type} (Equal : α → α → Option String)
    (render : α → String) (E A : List α) (actual : Actual α) (hA : SequenceOf actual A)
    (hE : E ≠ []) (hEq : ∀ a b, Equal a b = none → a = b)
    (hsucc : Succeeds (Sequence Equal render E) actual) :
    ∃ j, j + E.length ≤ A.length
      ∧ ∀ k (hk : k < E.length), A[j + k]? = some (E.get ⟨k, hk⟩) := by
  rw [Sequence_succeeds_iff Equal render E A actual hA hE] at hsucc
  obtain ⟨j, hj, hocc⟩ := seqLoop_returned_occurs Equal E A hEq 0 0 (seqInv_zero E A 0)
    none hsucc
  refine ⟨j, hj, fun k hk => ?_⟩
  rw [hocc k hk, List.getElem?_eq_getElem hk]
  rfl

/-- C18 (witness): `Sequence(2,3)` succeeds on the slice `[1,2,3,4]`, where `[2,3]`
stands at some offset. -/
theorem Sequence_succeeds_only_contiguous_witness :
    SequenceOf (Actual.slice [(1 : Int), 2, 3, 4]) [1, 2, 3, 4]
      ∧ [(2 : Int), 3] ≠ []
      ∧ (∀ a b : Int, sampleEqual a b = none → a = b)
      ∧ Succeeds (Sequence sampleEqual sampleRender [2, 3]) (Actual.slice [1, 2, 3, 4])
      ∧ ∃ j, j + [(2 : Int), 3].length ≤ [(1 : Int), 2, 3, 4].length
          ∧ ∀ k (hk : k < [(2 : Int), 3].length),
              [(1 : Int), 2, 3, 4][j + k]? = some ([(2 : Int), 3].get ⟨k, hk⟩) :=
  have hsucc : Succeeds (Sequence sampleEqual sampleRender [2, 3])
      (Actual.slice [1, 2, 3, 4]) := by
    rw [Sequence_succeeds_iff sampleEqual sampleRender _ [1, 2, 3, 4] _ (Or.inr rfl)
      (by simp)]
    simp [matchSliceSequence.loop, sampleEqual]
  ⟨Or.inr rfl, by simp, fun a b h => (sampleEqual_eq_none_iff a b).mp h, hsucc,
    Sequence_succeeds_only_contiguous sampleEqual sampleRender [2, 3] [1, 2, 3, 4]
      (Actual.slice [1, 2, 3, 4]) (Or.inr rfl) (by simp)
      (fun a b h => (sampleEqual_eq_none_iff a b).mp h) hsucc⟩

/-- C20: the restart rule loses contiguous occurrences: with an exact comparator,
`[1,1,2]` occurs in `[1,1,1,2]` as a contiguous block (at offset 1), yet
`Sequence(1,1,2)` fails on the slice `[1,1,1,2]`. -/
theorem Sequence_misses_overlapping_occurrence :
    (∀ a b : Int, sampleEqual a b = none ↔ a = b)
      ∧ [(1 : Int), 1, 2] ≠ []
      ∧ OccursContiguouslyIn [(1 : Int), 1, 2] [1, 1, 1, 2]
      ∧ Fails (Sequence sampleEqual sampleRender [1, 1, 2]) (Actual.slice [1, 1, 1, 2]) := by
  refine ⟨sampleEqual_eq_none_iff, by simp, ⟨1, by simp, ?_⟩, ?_⟩
  · intro k hk
    have hk3 : k < 3 := hk
    interval_cases k <;> simp
  · rw [Sequence_fails_iff sampleEqual sampleRender _ _ (by simp),
      Sequence_succeeds_iff sampleEqual sampleRender _ [1, 1, 1, 2] _ (Or.inr rfl) (by simp)]
    simp [matchSliceSequence.loop, sampleEqual]

/-! ## The loop invariant of `matchSliceSequence` -/

/-- The invariant holds whenever the loop condition is evaluated. -/
theorem seqReaches_inv {α : Type} (Equal : α → α → Option String) (E A : List α)
    (hEq : ∀ a b, Equal a b = none → a = b) (i mi : Nat)
    (hr : matchSliceSequence.Reaches Equal E A i mi) :
    SeqInv E A i mi ∧ i ≤ A.length ∧ mi ≤ E.length := by
  induction hr with
  | start => exact ⟨seqInv_zero E A 0, Nat.zero_le _, Nat.zero_le _⟩
  | pass i mi h _ _ ih =>
    cases hm : Equal (E.get ⟨mi, h.2⟩) (A.get ⟨i, h.1⟩) with
    | none =>
      rw [seqBody_match Equal E A i mi h hm]
      exact ⟨seqInv_succ E A i mi ih.1 h (hEq _ _ hm), h.1, h.2⟩
    | some err =>
      by_cases hpos : mi = 0
      · subst hpos
        rw [seqBody_miss_zero Equal E A i err h hm]
        exact ⟨seqInv_zero E A (i + 1), h.1, Nat.zero_le _⟩
      · rw [seqBody_miss_reset Equal E A i mi err h hm hpos]
        exact ⟨seqInv_zero E A i, ih.2.1, Nat.zero_le _⟩

/-- The cursors with which the loop runs to its end are cursors at which the loop
condition was evaluated. -/
theorem seqLoop_finished_reaches {α : Type} (Equal : α → α → Option String) (E A : List α)
    (i mi : Nat) (hr : matchSliceSequence.Reaches Equal E A i mi) (fi fm : Nat)
    (hfin : matchSliceSequence.loop Equal E A i mi = LoopExit.finished (fi, fm)) :
    matchSliceSequence.Reaches Equal E A fi fm
      ∧ ¬ (fi < A.length ∧ fm < E.length) := by
  induction i, mi using matchSliceSequence.loop.induct Equal E A with
  | case1 i mi h hm hlast =>
    rw [seqLoop_match_done Equal E A i mi h hm hlast] at hfin
    cases hfin
  | case2 i mi h hm hlast ih =>
    rw [seqLoop_match_more Equal E A i mi h hm hlast] at hfin
    have hnext := matchSliceSequence.Reaches.pass i mi h hr
      (by rw [seqBody_match Equal E A i mi h hm]; exact hlast)
    rw [seqBody_match Equal E A i mi h hm] at hnext
    exact ih hnext hfin
  | case3 i err0 h hm ih =>
    rw [seqLoop_miss_zero Equal E A i err0 h hm] at hfin
    have hne : (matchSliceSequence.body Equal E A i 0 h).2 ≠ E.length := by
      rw [seqBody_miss_zero Equal E A i err0 h hm]
      intro h0
      have h1 : 0 = E.length := h0
      omega
    have hnext := matchSliceSequence.Reaches.pass i 0 h hr hne
    rw [seqBody_miss_zero Equal E A i err0 h hm] at hnext
    exact ih hnext hfin
  | case4 i mi h err0 hm hpos ih =>
    rw [seqLoop_miss_reset Equal E A i mi err0 h hm hpos] at hfin
    have hne : (matchSliceSequence.body Equal E A i mi h).2 ≠ E.length := by
      rw [seqBody_miss_reset Equal E A i mi err0 h hm hpos]
      intro h0
      have h1 : 0 = E.length := h0
      omega
    have hnext := matchSliceSequence.Reaches.pass i mi h hr hne
    rw [seqBody_miss_reset Equal E A i mi err0 h hm hpos] at hnext
    exact ih hnext hfin
  | case5 i mi h =>
    rw [seqLoop_end Equal E A i mi h] at hfin
    cases hfin
    exact ⟨hr, h⟩

/-- Under the invariant at the end of the actual slice, the matched expected
elements are the last elements of the slice. -/
theorem seqInv_take_eq_drop {α : Type} (E A : List α) (k : Nat)
    (hinv : SeqInv E A A.length k) : E.take k = A.drop (A.length - k) := by
  apply List.ext_getElem?
  intro n
  rw [List.getElem?_take, List.getElem?_drop]
  by_cases hn : n < k
  · rw [if_pos hn]
    exact (hinv.2 n (A.length - k + n) hn (by have := hinv.1; omega)).symm
  · rw [if_neg hn]
    exact (List.getElem?_eq_none (by have := hinv.1; omega)).symm

/-- C19: with a comparator that succeeds only on equal values, whenever the loop
condition of `matchSliceSequence` is evaluated (at the start of each pass and at
the exit) the cursors satisfy `matchIndex <= i <= len(A)`, `matchIndex <= len(E)`
and `E[k] = A[i - matchIndex + k]` for every `k < matchIndex`; the cursors at the
exit are such cursors, with the loop condition false; and when `Sequence(E)`
fails, with `k` expected elements matched, `E[:k]` is the last `k` elements of
`A`. -/
theorem matchSliceSequence_loop_invariant {α : Type} (Equal : α → α → Option String)
    (E A : List α) (hEq : ∀ a b, Equal a b = none → a = b) :
    (∀ i mi, matchSliceSequence.Reaches Equal E A i mi →
        mi ≤ i ∧ i ≤ A.length ∧ mi ≤ E.length
          ∧ ∀ k, k < mi → E[k]? = A[i - mi + k]?)
      ∧ (∀ fi fm, matchSliceSequence.loop Equal E A 0 0 = LoopExit.finished (fi, fm) →
        matchSliceSequence.Reaches Equal E A fi fm ∧ ¬ (fi < A.length ∧ fm < E.length))
      ∧ (∀ (render : α → String) (actual : Actual α), SequenceOf actual A → E ≠ [] →
        Fails (Sequence Equal render E) actual →
        ∃ k, k < E.length
          ∧ matchSliceSequence.loop Equal E A 0 0 = LoopExit.finished (A.length, k)
          ∧ E.take k = A.drop (A.length - k)) := by
  refine ⟨?_, ?_, ?_⟩
  · intro i mi hr
    obtain ⟨hinv, hi, hmi⟩ := seqReaches_inv Equal E A hEq i mi hr
    refine ⟨hinv.1, hi, hmi, fun k hk => ?_⟩
    exact (hinv.2 k (i - mi + k) hk (by have := hinv.1; omega)).symm
  · intro fi fm hfin
    exact seqLoop_finished_reaches Equal E A 0 0 matchSliceSequence.Reaches.start fi fm hfin
  · intro render actual hA hE hfail
    obtain ⟨fi, k, hfin⟩ := Sequence_fails_finished Equal render E A actual hA hE hfail
    obtain ⟨hk, hfi, _⟩ := matchSliceSequence_finished Equal render E A hE fi k hfin
    subst hfi
    have hr := (seqLoop_finished_reaches Equal E A 0 0 matchSliceSequence.Reaches.start
      A.length k hfin).1
    have hinv := (seqReaches_inv Equal E A hEq A.length k hr).1
    exact ⟨k, hk, hfin, seqInv_take_eq_drop E A k hinv⟩

/-- C19 (witness): `Sequence(1,2,3)` fails on the slice `[4,1,2]` with two expected
elements matched, and `[1,2]` is the end of the slice. -/
theorem matchSliceSequence_loop_invariant_witness :
    (∀ a b : Int, sampleEqual a b = none → a = b)
      ∧ Fails (Sequence sampleEqual sampleRender [1, 2, 3]) (Actual.slice [4, 1, 2])
      ∧ ∃ k, k < [(1 : Int), 2, 3].length
          ∧ matchSliceSequence.loop sampleEqual [1, 2, 3] [4, 1, 2] 0 0
              = LoopExit.finished ([(4 : Int), 1, 2].length, k)
          ∧ [(1 : Int), 2, 3].take k = [(4 : Int), 1, 2].drop ([(4 : Int), 1, 2].length - k) :=
  have hEq : ∀ a b : Int, sampleEqual a b = none → a = b :=
    fun a b h => (sampleEqual_eq_none_iff a b).mp h
  have hfail : Fails (Sequence sampleEqual sampleRender [1, 2, 3])
      (Actual.slice [4, 1, 2]) := by
    rw [Sequence_fails_iff sampleEqual sampleRender _ _ (by simp),
      Sequence_succeeds_iff sampleEqual sampleRender _ [4, 1, 2] _ (Or.inr rfl) (by simp)]
    simp [matchSliceSequence.loop, sampleEqual]
  ⟨hEq, hfail,
    (matchSliceSequence_loop_invariant sampleEqual [1, 2, 3] [4, 1, 2] hEq).2.2
      sampleRender (Actual.slice [4, 1, 2]) (Or.inr rfl) (by simp) hfail⟩

end Matchers
